import Mathlib

/-!
Verification development for the Jupyter-kernel client core of the
promptbook VS Code extension: the wire-message codec
(`src/kernel/JupyterProtocol.ts`) and the kernel session manager
(`src/kernel/KernelManager.ts`).

The TypeScript is shallowly embedded as executable Lean definitions:

* JavaScript JSON values are the inductive `Json`; the external library
  functions `JSON.stringify` / `JSON.parse` are modelled by the executable
  pair `Json.encode` / `Json.parse` (a canonical-grammar JSON codec:
  `Json.parse` accepts exactly the strings `Json.encode` produces, which is
  the fragment of `JSON.parse` the codec round trip exercises).
* Node `Buffer`s are `String`s (frame contents are what matter).
* `crypto.createHmac('sha256', key)` is external to the repository; it is
  modelled by the executable deterministic digest `hmacSha256Hex`.
* Code that throws is modelled in `Except String`; code that returns
  `null` is modelled with `Option`.
-/

/-- JavaScript character constants used by the codec, written via their code
points. -/
def qt : Char := Char.ofNat 34

/-- Backslash character. -/
def bs : Char := Char.ofNat 92

/-- Opening curly brace character. -/
def lbrace : Char := Char.ofNat 123

/-- Closing curly brace character. -/
def rbrace : Char := Char.ofNat 125

/-- JSON-serializable JavaScript values (the values `JSON.stringify` accepts):
null, booleans, (integer) numbers, strings, arrays, and objects as ordered
field lists. -/
inductive Json where
  | null : Json
  | bool (b : Bool) : Json
  | num (n : Int) : Json
  | str (s : String) : Json
  | arr (elems : List Json) : Json
  | obj (fields : List (String × Json)) : Json

instance : Inhabited Json := ⟨Json.null⟩

/-- Decimal digit character for a digit value below ten. -/
def dchar (d : Nat) : Char := Char.ofNat (48 + d)

/-- Whether a character is a decimal digit. -/
def isDigitC (c : Char) : Bool := decide (48 ≤ c.toNat) && decide (c.toNat ≤ 57)

/-- Numeric value of a digit character. -/
def digitVal (c : Char) : Nat := c.toNat - 48

/-- Decimal digit characters of a natural number, most significant first. -/
def natChars (m : Nat) : List Char :=
  if _h : m < 10 then [dchar m]
  else natChars (m / 10) ++ [dchar (m % 10)]
termination_by m
decreasing_by exact Nat.div_lt_self (by omega) (by omega)

/-- Number of decimal digits `natChars` emits. -/
def ndg (m : Nat) : Nat :=
  if _h : m < 10 then 1
  else ndg (m / 10) + 1
termination_by m
decreasing_by exact Nat.div_lt_self (by omega) (by omega)

/-- Decimal digit characters of an integer (JavaScript number formatting for
integers). -/
def intChars : Int → List Char
  | Int.ofNat m => natChars m
  | Int.negSucc m => '-' :: natChars (m + 1)

/-- JSON string-body escaping: quote and backslash are escaped with a
backslash, other characters pass through. -/
def escBody : List Char → List Char
  | [] => []
  | c :: cs => (if c = qt ∨ c = bs then [bs, c] else [c]) ++ escBody cs

/-- Encoded JSON string literal: quoted, escaped body. -/
def encStrLit (s : String) : List Char := qt :: escBody s.data ++ [qt]

mutual
/-- `JSON.stringify` on a `Json` value, as a character list (compact form, no
whitespace — the form `JSON.stringify` produces with no spacing argument). -/
def encJ : Json → List Char
  | .null => "null".data
  | .bool b => (cond b "true" "false").data
  | .num n => intChars n
  | .str s => encStrLit s
  | .arr [] => ['[', ']']
  | .arr (x :: xs) => '[' :: (encJ x ++ encItemsRest xs) ++ [']']
  | .obj [] => [lbrace, rbrace]
  | .obj (kv :: kvs) => lbrace :: (encMember kv ++ encMembersRest kvs) ++ [rbrace]

/-- Comma-prefixed encodings of the remaining array elements. -/
def encItemsRest : List Json → List Char
  | [] => []
  | x :: xs => ',' :: encJ x ++ encItemsRest xs

/-- Encoding of one object member: quoted key, colon, value. -/
def encMember : String × Json → List Char
  | (k, v) => encStrLit k ++ ':' :: encJ v

/-- Comma-prefixed encodings of the remaining object members. -/
def encMembersRest : List (String × Json) → List Char
  | [] => []
  | kv :: kvs => ',' :: encMember kv ++ encMembersRest kvs
end

/-- `JSON.stringify` producing a `String`. -/
def Json.encode (j : Json) : String := String.mk (encJ j)

mutual
/-- Size measure of a `Json` value, used as parser fuel. -/
def szJ : Json → Nat
  | .null | .bool _ | .num _ | .str _ => 1
  | .arr xs => 1 + szItems xs
  | .obj kvs => 1 + szMembers kvs

/-- Size measure of an array-element list. -/
def szItems : List Json → Nat
  | [] => 0
  | x :: xs => 1 + szJ x + szItems xs

/-- Size measure of an object-member list. -/
def szMembers : List (String × Json) → Nat
  | [] => 0
  | kv :: kvs => 1 + szJ kv.2 + szMembers kvs
end

/-- Unfolding equation for `szJ` at `null`. -/
@[simp] theorem szJ_null : szJ Json.null = 1 := by rw [szJ.eq_def]

/-- Unfolding equation for `szJ` at booleans. -/
@[simp] theorem szJ_bool (b : Bool) : szJ (Json.bool b) = 1 := by rw [szJ.eq_def]

/-- Unfolding equation for `szJ` at numbers. -/
@[simp] theorem szJ_num (n : Int) : szJ (Json.num n) = 1 := by rw [szJ.eq_def]

/-- Unfolding equation for `szJ` at strings. -/
@[simp] theorem szJ_str (s : String) : szJ (Json.str s) = 1 := by rw [szJ.eq_def]

/-- Unfolding equation for `szJ` at arrays. -/
@[simp] theorem szJ_arr (xs : List Json) : szJ (Json.arr xs) = 1 + szItems xs := by
  rw [szJ.eq_def]

/-- Unfolding equation for `szJ` at objects. -/
@[simp] theorem szJ_obj (kvs : List (String × Json)) :
    szJ (Json.obj kvs) = 1 + szMembers kvs := by rw [szJ.eq_def]

/-- Unfolding equation for `szItems` at the empty list. -/
@[simp] theorem szItems_nil : szItems [] = 0 := by rw [szItems.eq_def]

/-- Unfolding equation for `szItems` at a cons. -/
@[simp] theorem szItems_cons (x : Json) (xs : List Json) :
    szItems (x :: xs) = 1 + szJ x + szItems xs := by rw [szItems.eq_def]

/-- Unfolding equation for `szMembers` at the empty list. -/
@[simp] theorem szMembers_nil : szMembers [] = 0 := by rw [szMembers.eq_def]

/-- Unfolding equation for `szMembers` at a cons. -/
@[simp] theorem szMembers_cons (kv : String × Json) (kvs : List (String × Json)) :
    szMembers (kv :: kvs) = 1 + szJ kv.2 + szMembers kvs := by rw [szMembers.eq_def]

/-- Strip an expected literal prefix from a character stream. -/
def stripPfx : List Char → List Char → Option (List Char)
  | [], cs => some cs
  | _ :: _, [] => none
  | p :: ps, c :: cs => if c = p then stripPfx ps cs else none

/-- Parse the body of a JSON string literal after the opening quote, undoing
`escBody`; returns the body characters and the stream after the closing
quote. -/
def parseStrBody : List Char → Option (List Char × List Char)
  | [] => none
  | c :: rest =>
    if c = qt then some ([], rest)
    else if c = bs then
      match rest with
      | [] => none
      | c2 :: rest2 => (parseStrBody rest2).map (fun p => (c2 :: p.1, p.2))
    else (parseStrBody rest).map (fun p => (c :: p.1, p.2))

/-- Greedily read decimal digits into an accumulator. -/
def grabDigits : List Char → Nat → Nat × List Char
  | [], acc => (acc, [])
  | c :: rest, acc =>
    if isDigitC c then grabDigits rest (10 * acc + digitVal c) else (acc, c :: rest)

/-- Whether the stream does not continue with a digit (so a number parse stops
exactly here). -/
def numStop : List Char → Bool
  | [] => true
  | c :: _ => !isDigitC c

mutual
/-- Fuel-indexed recursive-descent parser for the canonical JSON grammar
produced by `encJ` (the fragment of `JSON.parse` the codec exercises). -/
def parseJ : Nat → List Char → Option (Json × List Char)
  | 0, _ => none
  | _ + 1, [] => none
  | f + 1, c :: rest =>
    if c = 'n' then (stripPfx ['u', 'l', 'l'] rest).map (fun r => (Json.null, r))
    else if c = 't' then (stripPfx ['r', 'u', 'e'] rest).map (fun r => (Json.bool true, r))
    else if c = 'f' then (stripPfx ['a', 'l', 's', 'e'] rest).map (fun r => (Json.bool false, r))
    else if c = qt then (parseStrBody rest).map (fun p => (Json.str (String.mk p.1), p.2))
    else if c = '[' then
      match rest with
      | [] => none
      | r0 :: r1 =>
        if r0 = ']' then some (Json.arr [], r1)
        else (parseItems f (r0 :: r1)).map (fun p => (Json.arr p.1, p.2))
    else if c = lbrace then
      match rest with
      | [] => none
      | r0 :: r1 =>
        if r0 = rbrace then some (Json.obj [], r1)
        else (parseMembers f (r0 :: r1)).map (fun p => (Json.obj p.1, p.2))
    else if c = '-' then
      match rest with
      | [] => none
      | r0 :: _ =>
        if isDigitC r0 then
          let pr := grabDigits rest 0
          some (Json.num (-(Int.ofNat pr.1)), pr.2)
        else none
    else if isDigitC c then
      let pr := grabDigits (c :: rest) 0
      some (Json.num (Int.ofNat pr.1), pr.2)
    else none

/-- Parse one or more comma-separated array elements up to the closing
bracket. -/
def parseItems : Nat → List Char → Option (List Json × List Char)
  | 0, _ => none
  | f + 1, cs =>
    match parseJ f cs with
    | none => none
    | some (j, r) =>
      match r with
      | [] => none
      | r0 :: r1 =>
        if r0 = ',' then (parseItems f r1).map (fun p => (j :: p.1, p.2))
        else if r0 = ']' then some ([j], r1)
        else none

/-- Parse one or more comma-separated object members up to the closing
brace. -/
def parseMembers : Nat → List Char → Option (List (String × Json) × List Char)
  | 0, _ => none
  | f + 1, cs =>
    match cs with
    | [] => none
    | c :: rest =>
      if c = qt then
        match parseStrBody rest with
        | none => none
        | some (k, r1) =>
          match r1 with
          | [] => none
          | r2 :: r3 =>
            if r2 = ':' then
              match parseJ f r3 with
              | none => none
              | some (v, r4) =>
                match r4 with
                | [] => none
                | r5 :: r6 =>
                  if r5 = ',' then
                    (parseMembers f r6).map (fun p => ((String.mk k, v) :: p.1, p.2))
                  else if r5 = rbrace then some ([(String.mk k, v)], r6)
                  else none
            else none
      else none
end

/-- `JSON.parse` on a whole string: parse with ample fuel and require full
consumption; `none` models the `SyntaxError` throw. -/
def Json.parse (s : String) : Option Json :=
  match parseJ (s.data.length + 1) s.data with
  | some (j, []) => some j
  | _ => none

/-! ### Round trip of the JSON codec -/

/-- Rebuilding a string from its characters is the identity. -/
theorem mk_data (s : String) : String.mk s.data = s := rfl

/-- A digit value below ten yields a digit character with the same value. -/
theorem dchar_digit (d : Nat) (h : d < 10) :
    isDigitC (dchar d) = true ∧ digitVal (dchar d) = d := by
  interval_cases d <;> exact ⟨by decide, by decide⟩

/-- A digit character is none of the characters that start another JSON
token, nor a closing delimiter. -/
theorem digit_not_special (c : Char) (h : isDigitC c = true) :
    c ≠ 'n' ∧ c ≠ 't' ∧ c ≠ 'f' ∧ c ≠ qt ∧ c ≠ '[' ∧ c ≠ lbrace ∧ c ≠ '-' ∧
    c ≠ ']' ∧ c ≠ rbrace := by
  refine ⟨?_, ?_, ?_, ?_, ?_, ?_, ?_, ?_, ?_⟩ <;>
    { intro h1; rw [h1] at h; exact absurd h (by decide) }

/-- `natChars` emits a nonempty digit string. -/
theorem natChars_cons (m : Nat) :
    ∃ c cs, natChars m = c :: cs ∧ isDigitC c = true := by
  by_cases h : m < 10
  · exact ⟨dchar m, [], by rw [natChars, dif_pos h], (dchar_digit m h).1⟩
  · obtain ⟨c, cs, hc, hd⟩ := natChars_cons (m / 10)
    exact ⟨c, cs ++ [dchar (m % 10)], by rw [natChars, dif_neg h, hc]; rfl, hd⟩
termination_by m
decreasing_by exact Nat.div_lt_self (by omega) (by omega)

/-- Reading the digits of `m` accumulates exactly `m` under the running
accumulator. -/
theorem grab_nat (m acc : Nat) (rest : List Char) :
    grabDigits (natChars m ++ rest) acc = grabDigits rest (acc * 10 ^ ndg m + m) := by
  by_cases h : m < 10
  · have hd := dchar_digit m h
    rw [natChars, dif_pos h, ndg, dif_pos h]
    simp only [List.cons_append, List.nil_append, grabDigits, hd.1, if_pos, hd.2]
    congr 1
    ring
  · rw [natChars, dif_neg h, ndg, dif_neg h, List.append_assoc]
    simp only [List.singleton_append]
    rw [grab_nat (m / 10) acc (dchar (m % 10) :: rest)]
    have hd := dchar_digit (m % 10) (Nat.mod_lt _ (by omega))
    simp only [List.cons_append, grabDigits, hd.1, if_pos, hd.2]
    congr 1
    have hm : 10 * (m / 10) + m % 10 = m := by omega
    calc 10 * (acc * 10 ^ ndg (m / 10) + m / 10) + m % 10
        = acc * (10 ^ ndg (m / 10) * 10) + (10 * (m / 10) + m % 10) := by ring
      _ = acc * 10 ^ (ndg (m / 10) + 1) + m := by rw [hm, pow_succ]
termination_by m
decreasing_by exact Nat.div_lt_self (by omega) (by omega)

/-- Digit reading stops exactly at a non-digit boundary. -/
theorem grab_stop (acc : Nat) (rest : List Char) (h : numStop rest = true) :
    grabDigits rest acc = (acc, rest) := by
  cases rest with
  | nil => rfl
  | cons c r =>
    simp only [numStop, Bool.not_eq_true'] at h
    simp [grabDigits, h]

/-- Stripping a literal prefix off itself succeeds and returns the tail. -/
theorem stripPfx_append (p rest : List Char) : stripPfx p (p ++ rest) = some rest := by
  induction p with
  | nil => rfl
  | cons c ps ih => simp [stripPfx, ih]

/-- Parsing an escaped string body terminated by an unescaped quote recovers
the original characters. -/
theorem strBody_rt (cs rest : List Char) :
    parseStrBody (escBody cs ++ qt :: rest) = some (cs, rest) := by
  induction cs with
  | nil =>
    rw [show escBody [] = [] from by simp [escBody], List.nil_append,
      parseStrBody.eq_def]
    simp
  | cons c cs ih =>
    by_cases h : c = qt ∨ c = bs
    · rw [show escBody (c :: cs) = [bs, c] ++ escBody cs from by simp [escBody, h]]
      simp only [List.cons_append, List.nil_append]
      rw [parseStrBody.eq_def]
      simp +decide [ih]
    · push_neg at h
      rw [show escBody (c :: cs) = [c] ++ escBody cs from by simp [escBody, h],
        List.singleton_append, parseStrBody.eq_def]
      simp [h.1, h.2, ih]

/-- Every encoded JSON value is nonempty and starts with a character that is
neither a closing bracket nor a closing brace. -/
theorem encJ_head_ne (j : Json) :
    ∃ c cs, encJ j = c :: cs ∧ c ≠ ']' ∧ c ≠ rbrace := by
  cases j with
  | null => exact ⟨'n', _, rfl, by decide, by decide⟩
  | bool b => cases b with
    | true => exact ⟨'t', _, rfl, by decide, by decide⟩
    | false => exact ⟨'f', _, rfl, by decide, by decide⟩
  | num n =>
    cases n with
    | ofNat m =>
      obtain ⟨c, cs, hc, hd⟩ := natChars_cons m
      have h := digit_not_special c hd
      exact ⟨c, cs, by simp [encJ, intChars, hc], h.2.2.2.2.2.2.2.1, h.2.2.2.2.2.2.2.2⟩
    | negSucc m =>
      exact ⟨'-', natChars (m + 1), by simp [encJ, intChars], by decide, by decide⟩
  | str s => exact ⟨qt, _, rfl, by decide, by decide⟩
  | arr xs => cases xs with
    | nil => exact ⟨'[', _, rfl, by decide, by decide⟩
    | cons x xs => exact ⟨'[', _, rfl, by decide, by decide⟩
  | obj kvs => cases kvs with
    | nil => exact ⟨lbrace, _, rfl, by decide, by decide⟩
    | cons kv kvs => exact ⟨lbrace, _, rfl, by decide, by decide⟩

/-- Every `Json` value has positive size. -/
theorem szJ_pos (j : Json) : 1 ≤ szJ j := by
  cases j <;> simp [szJ]

/-- Round trip of the canonical JSON codec, proved by induction on parser
fuel: with enough fuel, parsing the encoding of a value (or of a nonempty
element/member list) followed by a suitable boundary returns it exactly. -/
theorem rtAll (f : Nat) :
    (∀ j rest, szJ j ≤ f → numStop rest = true →
      parseJ f (encJ j ++ rest) = some (j, rest)) ∧
    (∀ x xs rest, szJ x + szItems xs + 1 ≤ f →
      parseItems f (encJ x ++ encItemsRest xs ++ ']' :: rest) = some (x :: xs, rest)) ∧
    (∀ k v kvs rest, szJ v + szMembers kvs + 1 ≤ f →
      parseMembers f (encMember (k, v) ++ encMembersRest kvs ++ rbrace :: rest)
        = some ((k, v) :: kvs, rest)) := by
  induction f with
  | zero =>
    refine ⟨?_, ?_, ?_⟩
    · intro j rest hf _
      exact absurd hf (by have := szJ_pos j; omega)
    · intro x xs rest hf
      exact absurd hf (by omega)
    · intro k v kvs rest hf
      exact absurd hf (by omega)
  | succ f1 IH =>
    obtain ⟨IHj, IHitems, IHmembers⟩ := IH
    refine ⟨?_, ?_, ?_⟩
    · intro j rest hf hs
      cases j with
      | null =>
        rw [show encJ .null = ['n', 'u', 'l', 'l'] from rfl]
        simp only [List.cons_append, List.nil_append]
        rw [parseJ.eq_def]
        simp [stripPfx]
      | bool b =>
        cases b with
        | true =>
          rw [show encJ (.bool true) = ['t', 'r', 'u', 'e'] from rfl]
          simp only [List.cons_append, List.nil_append]
          rw [parseJ.eq_def]
          simp +decide [stripPfx]
        | false =>
          rw [show encJ (.bool false) = ['f', 'a', 'l', 's', 'e'] from rfl]
          simp only [List.cons_append, List.nil_append]
          rw [parseJ.eq_def]
          simp +decide [stripPfx]
      | num n =>
        cases n with
        | ofNat m =>
          obtain ⟨c, cs, hc, hd⟩ := natChars_cons m
          have hsp := digit_not_special c hd
          rw [show encJ (.num (Int.ofNat m)) = natChars m from by simp [encJ, intChars], hc]
          simp only [List.cons_append]
          rw [parseJ.eq_def]
          simp only [hsp.1, hsp.2.1, hsp.2.2.1, hsp.2.2.2.1, hsp.2.2.2.2.1,
            hsp.2.2.2.2.2.1, hsp.2.2.2.2.2.2.1, if_false, ite_false, if_neg,
            not_false_eq_true, hd, if_true, ite_true]
          rw [show c :: (cs ++ rest) = natChars m ++ rest from by rw [hc]; rfl,
            grab_nat, grab_stop _ _ hs]
          simp
        | negSucc m =>
          obtain ⟨c, cs, hc, hd⟩ := natChars_cons (m + 1)
          rw [show encJ (.num (Int.negSucc m)) = '-' :: natChars (m + 1) from by
            simp [encJ, intChars], hc]
          simp only [List.cons_append]
          rw [parseJ.eq_def]
          simp +decide only [hd, if_true, ite_true, if_false, ite_false]
          rw [show c :: (cs ++ rest) = natChars (m + 1) ++ rest from by rw [hc]; rfl,
            grab_nat, grab_stop _ _ hs]
          simp only [Nat.zero_mul, Nat.zero_add]
          rw [show -(Int.ofNat (m + 1)) = Int.negSucc m from by
            rw [Int.negSucc_eq]; simp only [Int.ofNat_eq_coe]; push_cast; ring]
      | str s =>
        rw [show encJ (.str s) = qt :: (escBody s.data ++ [qt]) from by
          simp [encJ, encStrLit]]
        simp only [List.cons_append, List.append_assoc, List.singleton_append]
        rw [parseJ.eq_def]
        simp +decide [strBody_rt, mk_data]
      | arr xs =>
        cases xs with
        | nil =>
          rw [show encJ (.arr []) = ['[', ']'] from by simp [encJ]]
          simp only [List.cons_append, List.nil_append]
          rw [parseJ.eq_def]
          simp +decide
        | cons x xs =>
          obtain ⟨c, cs, hc, hne1, hne2⟩ := encJ_head_ne x
          rw [show encJ (.arr (x :: xs)) = '[' :: (encJ x ++ encItemsRest xs) ++ [']']
            from by simp [encJ]]
          simp only [List.cons_append, List.append_assoc, List.singleton_append,
            List.nil_append]
          rw [hc]
          simp only [List.cons_append]
          rw [parseJ.eq_def]
          simp +decide only [hne1, if_false, ite_false, if_true, ite_true]
          rw [show c :: (cs ++ (encItemsRest xs ++ ']' :: rest))
              = encJ x ++ encItemsRest xs ++ ']' :: rest from by rw [hc]; simp]
          rw [IHitems x xs rest (by simp at hf; omega)]
          rfl
      | obj kvs =>
        cases kvs with
        | nil =>
          rw [show encJ (.obj []) = [lbrace, rbrace] from by simp [encJ]]
          simp only [List.cons_append, List.nil_append]
          rw [parseJ.eq_def]
          simp +decide
        | cons kv kvs =>
          obtain ⟨k, v⟩ := kv
          rw [show encJ (.obj ((k, v) :: kvs))
              = lbrace :: (encMember (k, v) ++ encMembersRest kvs) ++ [rbrace]
            from by simp [encJ]]
          rw [show encMember (k, v) = qt :: (escBody k.data ++ qt :: ':' :: encJ v)
            from by simp [encMember, encStrLit]]
          simp only [List.cons_append, List.append_assoc, List.singleton_append,
            List.nil_append]
          rw [parseJ.eq_def]
          simp +decide only [if_true, ite_true, if_false, ite_false]
          rw [show qt :: (escBody k.data ++ (qt :: ':' :: (encJ v ++ (encMembersRest kvs ++ rbrace :: rest))))
              = encMember (k, v) ++ encMembersRest kvs ++ rbrace :: rest from by
            simp [encMember, encStrLit]]
          rw [IHmembers k v kvs rest (by simp at hf; omega)]
          rfl
    · intro x xs rest hf
      have hstop : numStop (encItemsRest xs ++ ']' :: rest) = true := by
        cases xs <;> simp +decide [encItemsRest, numStop]
      rw [show encJ x ++ encItemsRest xs ++ ']' :: rest
          = encJ x ++ (encItemsRest xs ++ ']' :: rest) from by simp]
      rw [parseItems.eq_def]
      simp only [IHj x (encItemsRest xs ++ ']' :: rest) (by omega) hstop]
      cases xs with
      | nil => simp +decide [encItemsRest]
      | cons y ys =>
        simp only [encItemsRest, List.cons_append]
        simp +decide only [if_true, ite_true]
        rw [IHitems y ys rest (by simp at hf; have := szJ_pos x; omega)]
        rfl
    · intro k v kvs rest hf
      rw [show encMember (k, v) ++ encMembersRest kvs ++ rbrace :: rest
          = qt :: (escBody k.data ++ (qt :: ':' :: (encJ v ++ (encMembersRest kvs ++ rbrace :: rest))))
        from by simp [encMember, encStrLit]]
      rw [parseMembers.eq_def]
      simp +decide only [if_true, ite_true]
      rw [show escBody k.data ++ (qt :: ':' :: (encJ v ++ (encMembersRest kvs ++ rbrace :: rest)))
          = escBody k.data ++ qt :: (':' :: (encJ v ++ (encMembersRest kvs ++ rbrace :: rest)))
        from rfl]
      rw [strBody_rt]
      have hstop : numStop (encMembersRest kvs ++ rbrace :: rest) = true := by
        cases kvs <;> simp +decide [encMembersRest, numStop]
      simp +decide only [if_true, ite_true]
      rw [IHj v (encMembersRest kvs ++ rbrace :: rest) (by omega) hstop]
      cases kvs with
      | nil => simp +decide [encMembersRest, mk_data]
      | cons kv2 kvs2 =>
        obtain ⟨k2, v2⟩ := kv2
        simp only [encMembersRest, List.cons_append]
        simp +decide only [if_true, ite_true]
        rw [IHmembers k2 v2 kvs2 rest (by simp at hf; have := szJ_pos v; omega)]
        simp [mk_data]

/-- The encoding of a value is at least as long as its size measure, so the
length-based fuel used by `Json.parse` is always sufficient. -/
theorem encJ_len (n : Nat) :
    (∀ j, szJ j ≤ n → szJ j ≤ (encJ j).length) ∧
    (∀ xs, szItems xs ≤ n → szItems xs ≤ (encItemsRest xs).length) ∧
    (∀ kvs, szMembers kvs ≤ n → szMembers kvs ≤ (encMembersRest kvs).length) := by
  induction n with
  | zero =>
    refine ⟨fun j hf => absurd hf (by have := szJ_pos j; omega),
      fun xs hf => ?_, fun kvs hf => ?_⟩
    · omega
    · omega
  | succ n IH =>
    obtain ⟨IHj, IHitems, IHmembers⟩ := IH
    refine ⟨?_, ?_, ?_⟩
    · intro j hf
      cases j with
      | null => simp [encJ]
      | bool b => cases b <;> simp [encJ]
      | num m =>
        cases m with
        | ofNat m =>
          obtain ⟨c, cs, hc, _⟩ := natChars_cons m
          simp [encJ, intChars, hc]
        | negSucc m => simp [encJ, intChars]
      | str s => simp [encJ, encStrLit]
      | arr xs =>
        cases xs with
        | nil => simp [encJ]
        | cons x xs =>
          have h1 := IHj x (by simp at hf; omega)
          have h2 := IHitems xs (by simp at hf; omega)
          simp only [szJ_arr, szItems_cons, encJ, List.length_cons, List.length_append]
          omega
      | obj kvs =>
        cases kvs with
        | nil => simp [encJ]
        | cons kv kvs =>
          obtain ⟨k, v⟩ := kv
          have h1 := IHj v (by simp at hf; omega)
          have h2 := IHmembers kvs (by simp at hf; omega)
          simp only [szJ_obj, szMembers_cons, encJ, encMember, encStrLit,
            List.length_cons, List.length_append]
          omega
    · intro xs hf
      cases xs with
      | nil => simp
      | cons x xs =>
        have h1 := IHj x (by simp at hf; have := szJ_pos x; omega)
        have h2 := IHitems xs (by simp at hf; have := szJ_pos x; omega)
        simp only [szItems_cons, encItemsRest, List.length_cons, List.length_append]
        omega
    · intro kvs hf
      cases kvs with
      | nil => simp
      | cons kv kvs =>
        obtain ⟨k, v⟩ := kv
        have h1 := IHj v (by simp at hf; have := szJ_pos v; omega)
        have h2 := IHmembers kvs (by simp at hf; have := szJ_pos v; omega)
        simp only [szMembers_cons, encMembersRest, encMember, encStrLit,
          List.length_cons, List.length_append]
        omega

/-- Fuel bound corollary: a value's size never exceeds its encoding length. -/
theorem szJ_le_enc (j : Json) : szJ j ≤ (encJ j).length :=
  (encJ_len (szJ j)).1 j le_rfl

/-- The JSON codec round trip: `JSON.parse (JSON.stringify v)` returns `v`
for every JSON-serializable value. -/
theorem Json.parse_encode (j : Json) : Json.parse (Json.encode j) = some j := by
  unfold Json.parse Json.encode
  have h := (rtAll ((encJ j).length + 1)).1 j [] (by have := szJ_le_enc j; omega) rfl
  rw [List.append_nil] at h
  simp [h]

/-! ### The wire protocol (`src/kernel/JupyterProtocol.ts`) -/

/-- The frame delimiter literal used by the protocol. -/
def delimS : String := "<IDS|MSG>"

/-- Modelled stand-in for the external `crypto.createHmac('sha256', key)` hex
digest: a deterministic executable hash of the key and the concatenated
update data (the codec only relies on the digest being a deterministic
function of key and data). -/
def hmacSha256Hex (key data : String) : String :=
  toString ((key ++ "|" ++ data).data.foldl
    (fun a c => (a * 131 + c.toNat) % 1000000007) 7)

/-- `JupyterProtocol.sign`: empty signature when no key is configured,
otherwise the HMAC hex digest over the parts in update order (updating an
HMAC part by part equals hashing the concatenation). -/
def sign (key : String) (parts : List String) : String :=
  if key = "" then "" else hmacSha256Hex key (String.join parts)

/-- A Jupyter message as the manager sees it: the four JSON parts and the
attached binary buffers (`JupyterMessage` in `JupyterProtocol.ts`; the parts
are arbitrary JSON values, as produced by `JSON.parse`). -/
structure JupyterMessage where
  header : Json
  parent_header : Json
  metadata : Json
  content : Json
  buffers : List String

/-- `JupyterProtocol.serializeMessage`: the delimiter frame, the signature
over the four JSON-encoded parts, then the four parts. (The source never
appends `msg.buffers`.) -/
def serializeMessage (key : String) (msg : JupyterMessage) : List String :=
  let header := Json.encode msg.header
  let parentHeader := Json.encode msg.parent_header
  let metadata := Json.encode msg.metadata
  let content := Json.encode msg.content
  let signature := sign key [header, parentHeader, metadata, content]
  [delimS, signature, header, parentHeader, metadata, content]

/-- Index of the first frame equal to the delimiter (`delimiterIndex` scan in
`parseMessage`); `none` models `-1`. -/
def findDelim : List String → Option Nat
  | [] => none
  | f :: rest => if f = delimS then some 0 else (findDelim rest).map (· + 1)

/-- Result of a `parseMessage` call that did not throw: the returned message
(`none` models the `null` return) and the `console.warn` lines it emitted. -/
structure ParseOut where
  msg : Option JupyterMessage
  warnings : List String

/-- `JupyterProtocol.parseMessage`: scan for the delimiter, fail (return
`null`) when it is absent or fewer than five frames follow it, JSON-parse the
four positional parts (a parse failure throws, modelled as `.error`), verify
the signature when a key is configured and the signature frame is nonempty —
on mismatch only warn — and return the message with any remaining frames as
buffers. -/
def parseMessage (key : String) (frames : List String) :
    Except String ParseOut :=
  match findDelim frames with
  | none => .ok ⟨none, []⟩
  | some i =>
    match frames.drop i with
    | _d :: signature :: hs :: ps :: ms :: cs :: bufs =>
      match Json.parse hs, Json.parse ps, Json.parse ms, Json.parse cs with
      | some h, some p, some m, some c =>
        let warns :=
          if key ≠ "" ∧ signature ≠ "" ∧ signature ≠ sign key [hs, ps, ms, cs] then
            ["Message signature mismatch"]
          else []
        .ok ⟨some ⟨h, p, m, c, bufs⟩, warns⟩
      | _, _, _, _ => .error "SyntaxError: JSON.parse"
    | _ => .ok ⟨none, []⟩

/-! ### JavaScript value helpers used by the manager -/

/-- Property access `v[k]` as the manager performs it on parsed JSON: throws
on `null` (modelled as `.error`), yields the first matching field of an
object, and `undefined` (`none`) otherwise. -/
def jget (v : Json) (k : String) : Except String (Option Json) :=
  match v with
  | .null => .error "TypeError: cannot read properties of null"
  | .obj kvs => .ok (List.lookup k kvs)
  | _ => .ok none

/-- JavaScript truthiness of a JSON value. -/
def truthy : Json → Bool
  | .null => false
  | .bool b => b
  | .num n => decide (n ≠ 0)
  | .str s => decide (s ≠ "")
  | .arr _ => true
  | .obj _ => true

/-- Truthiness of a possibly-`undefined` value. -/
def truthyO : Option Json → Bool
  | some v => truthy v
  | none => false

/-- Whether a JSON value is `null`. -/
def isNull : Json → Bool
  | .null => true
  | _ => false

mutual
/-- JavaScript `String(v)` on a JSON value (used where the code passes a
value where a string is expected). -/
def jsStr : Json → String
  | .null => "null"
  | .bool b => cond b "true" "false"
  | .num n => String.mk (intChars n)
  | .str s => s
  | .arr xs => String.intercalate "," (jsElems xs)
  | .obj _ => "[object Object]"

/-- Element conversions for `Array.prototype.join`: `null` becomes the empty
string, other values their `String` conversion. -/
def jsElems : List Json → List String
  | [] => []
  | x :: xs => (if isNull x then "" else jsStr x) :: jsElems xs
end

/-- One `Array.prototype.join` element conversion. -/
def joinElem (x : Json) : String := if isNull x then "" else jsStr x

mutual
/-- `JSON.stringify(v, null, 2)`: two-space-indented pretty printing, used by
the `application/json` display branch. -/
def prettyAux : Nat → Json → List Char
  | _, .null => "null".data
  | _, .bool b => (cond b "true" "false").data
  | _, .num n => intChars n
  | _, .str s => encStrLit s
  | _, .arr [] => ['[', ']']
  | ind, .arr (x :: xs) =>
    '[' :: '\n' :: (List.replicate (ind + 2) ' ' ++ prettyAux (ind + 2) x)
      ++ prettyItemsRest (ind + 2) xs ++ '\n' :: List.replicate ind ' ' ++ [']']
  | _, .obj [] => [lbrace, rbrace]
  | ind, .obj (kv :: kvs) =>
    lbrace :: '\n' :: (List.replicate (ind + 2) ' ' ++ prettyMember (ind + 2) kv)
      ++ prettyMembersRest (ind + 2) kvs ++ '\n' :: List.replicate ind ' ' ++ [rbrace]

/-- Remaining pretty-printed array items, comma-and-newline separated. -/
def prettyItemsRest : Nat → List Json → List Char
  | _, [] => []
  | ind, x :: xs =>
    ',' :: '\n' :: (List.replicate ind ' ' ++ prettyAux ind x) ++ prettyItemsRest ind xs

/-- One pretty-printed object member. -/
def prettyMember : Nat → String × Json → List Char
  | ind, (k, v) => encStrLit k ++ ':' :: ' ' :: prettyAux ind v

/-- Remaining pretty-printed object members. -/
def prettyMembersRest : Nat → List (String × Json) → List Char
  | _, [] => []
  | ind, kv :: kvs =>
    ',' :: '\n' :: (List.replicate ind ' ' ++ prettyMember ind kv)
      ++ prettyMembersRest ind kvs
end

/-- Top-level two-space pretty printing. -/
def prettyJson (j : Json) : String := String.mk (prettyAux 0 j)

/-! ### The kernel manager (`src/kernel/KernelManager.ts`) -/

/-- `KernelState` from `KernelManager.ts`. -/
inductive KernelState where
  | idle
  | busy
  | starting
  | dead
  | disconnected
deriving DecidableEq

/-- The `type` tags of `KernelOutput`. -/
inductive OutKind where
  | stdout
  | stderr
  | result
  | display
  | error
  | status
deriving DecidableEq

/-- `KernelOutput`: the classified output record the manager emits. The
`content` field is typed `string` in the source but holds whatever JSON value
the handler read at runtime, so it is modelled as a JSON value
(`none` models `undefined`). -/
structure KernelOutput where
  type : OutKind
  content : Option Json
  mimeType : Option String
  executionCount : Option Json

/-- Events the manager emits to subscribers (`this.emit(...)` calls):
`stateChange` with the new state, `output` with the output and the
correlating parent message id, and `error`. -/
inductive Emitted where
  | stateChange (state : KernelState)
  | output (o : KernelOutput) (parent : Option String)
  | errorEv

/-- The mutable fields of a `KernelManager` instance. The `pendingExecutions`
map is `pending` (message id to collected outputs); `promises` tracks, for
each execute call's completion promise, whether its `resolve` has ever been
invoked — the promise object outlives the map entry that holds its resolver.
Socket, process and protocol references are tracked by presence flags, and
`iopubAlive` records whether the iopub listener loop is still running. -/
structure KM where
  state : KernelState
  executionCount : Json
  pending : List (String × List KernelOutput)
  promises : List (String × Bool)
  hasProcess : Bool
  pid : Option Nat
  hasShell : Bool
  hasIopub : Bool
  hasControl : Bool
  hasProtocol : Bool
  iopubAlive : Bool

/-- A freshly constructed manager: state `disconnected`, counter `0`, no
process, sockets, protocol or pending executions. -/
def km0 : KM :=
  { state := .disconnected, executionCount := .num 0, pending := [],
    promises := [], hasProcess := false, pid := none, hasShell := false,
    hasIopub := false, hasControl := false, hasProtocol := false,
    iopubAlive := false }

/-- `KernelManager.setState`: change the state and emit `stateChange` only
when the new state differs. -/
def setState (s : KM) (newState : KernelState) : KM × List Emitted :=
  if s.state ≠ newState then
    ({ s with state := newState }, [.stateChange newState])
  else (s, [])

/-- `Map.delete` on the association-list model of the pending map. -/
def mdelete (k : String) (l : List (String × α)) : List (String × α) :=
  l.filter (fun kv => !(kv.1 == k))

/-- `Map.set` on the association-list model (replacement position is not
observable: the map is only read through has/get/delete/clear). -/
def mset (k : String) (v : α) (l : List (String × α)) : List (String × α) :=
  (k, v) :: mdelete k l

/-- Append an output to the entry of the matching pending execution. -/
def pushOutput (p : String) (o : KernelOutput)
    (l : List (String × List KernelOutput)) : List (String × List KernelOutput) :=
  l.map (fun kv => if kv.1 = p then (kv.1, kv.2 ++ [o]) else kv)

/-- The handler's `emitOutput` closure: push the output onto the matching
pending execution, if one is tracked, and emit the `output` event in every
case. -/
def emitOut (s : KM) (pid? : Option String) (o : KernelOutput) :
    KM × List Emitted :=
  let s' := match pid? with
    | some p =>
      if (List.lookup p s.pending).isSome then
        { s with pending := pushOutput p o s.pending }
      else s
    | none => s
  (s', [.output o pid?])

/-- Display branch, `text/plain` stage: emit a `result` output when the value
is truthy, otherwise nothing. -/
def dispPlain (s : KM) (pid? : Option String) (dv : Json) :
    Except String (KM × List Emitted) :=
  match jget dv "text/plain" with
  | .error e => .error e
  | .ok tp =>
    if truthyO tp then .ok (emitOut s pid? ⟨.result, tp, none, none⟩)
    else .ok (s, [])

/-- Display branch, `application/json` stage: `JSON.parse` the value (throw
on failure) and emit its two-space pretty printing; fall through otherwise. -/
def dispJson (s : KM) (pid? : Option String) (dv : Json) :
    Except String (KM × List Emitted) :=
  match jget dv "application/json" with
  | .error e => .error e
  | .ok aj =>
    match aj with
    | some v =>
      if truthy v then
        match Json.parse (jsStr v) with
        | some pj =>
          .ok (emitOut s pid?
            ⟨.display, some (.str (prettyJson pj)), some "application/json", none⟩)
        | none => .error "SyntaxError: JSON.parse"
      else dispPlain s pid? dv
    | none => dispPlain s pid? dv

/-- Display branch, `text/html` stage. -/
def dispHtml (s : KM) (pid? : Option String) (dv : Json) :
    Except String (KM × List Emitted) :=
  match jget dv "text/html" with
  | .error e => .error e
  | .ok hv =>
    match hv with
    | some v =>
      if truthy v then
        .ok (emitOut s pid? ⟨.display, some v, some "text/html", none⟩)
      else dispJson s pid? dv
    | none => dispJson s pid? dv

/-- Display branch, `image/jpeg` stage. -/
def dispJpeg (s : KM) (pid? : Option String) (dv : Json) :
    Except String (KM × List Emitted) :=
  match jget dv "image/jpeg" with
  | .error e => .error e
  | .ok jv =>
    match jv with
    | some v =>
      if truthy v then
        .ok (emitOut s pid? ⟨.display, some v, some "image/jpeg", none⟩)
      else dispHtml s pid? dv
    | none => dispHtml s pid? dv

/-- Display/result classification from `handleIopubMessage`: inspect the
representations in the source's order `image/png`, `image/jpeg`,
`text/html`, `application/json`, `text/plain`; each guard is JavaScript
truthiness of the representation value. -/
def displayBranch (s : KM) (pid? : Option String) (dv : Json) :
    Except String (KM × List Emitted) :=
  match jget dv "image/png" with
  | .error e => .error e
  | .ok png =>
    match png with
    | some v =>
      if truthy v then
        .ok (emitOut s pid? ⟨.display, some v, some "image/png", none⟩)
      else dispJpeg s pid? dv
    | none => dispJpeg s pid? dv

/-- The parent message id read from a parsed `parent_header`
(`(msg.parent_header as { msg_id?: string }).msg_id` used as a map key):
only a string value acts as a usable key. -/
def parentIdOf (pidv : Option Json) : Option String :=
  match pidv with
  | some (.str x) => some x
  | _ => none

/-- `KernelManager.handleIopubMessage`, faithful to the source's branch
order: status (busy/idle state changes, idle resolves the matching pending
execution), stream, display/result, error, execute_reply (updates the
execution counter from a truthy `execution_count`); anything else is
ignored. Property accesses on `null` content throw, modelled as `.error`. -/
def handleIopubMessage (s : KM) (m : JupyterMessage) :
    Except String (KM × List Emitted) :=
  match jget m.parent_header "msg_id" with
  | .error e => .error e
  | .ok pidv =>
    let pid? : Option String := parentIdOf pidv
    match jget m.header "msg_type" with
    | .error e => .error e
    | .ok mtv =>
      match mtv with
      | some (.str mt) =>
        if mt = "status" then
          match jget m.content "execution_state" with
          | .error e => .error e
          | .ok esv =>
            match esv with
            | some (.str es) =>
              if es = "busy" then .ok (setState s .busy)
              else if es = "idle" then
                let r := setState s .idle
                match pid? with
                | some p =>
                  if (List.lookup p r.1.pending).isSome then
                    .ok ({ r.1 with pending := mdelete p r.1.pending,
                                    promises := mset p true r.1.promises }, r.2)
                  else .ok (r.1, r.2)
                | none => .ok (r.1, r.2)
              else .ok (s, [])
            | _ => .ok (s, [])
        else if mt = "stream" then
          match jget m.content "name" with
          | .error e => .error e
          | .ok nv =>
            match jget m.content "text" with
            | .error e => .error e
            | .ok tv =>
              let kind := match nv with
                | some (.str nm) => if nm = "stdout" then OutKind.stdout else OutKind.stderr
                | _ => OutKind.stderr
              .ok (emitOut s pid? ⟨kind, tv, none, none⟩)
        else if mt = "display_data" ∨ mt = "execute_result" then
          match jget m.content "data" with
          | .error e => .error e
          | .ok dv? =>
            match dv? with
            | none => .error "TypeError: cannot read properties of undefined"
            | some dv => displayBranch s pid? dv
        else if mt = "error" then
          match jget m.content "traceback" with
          | .error e => .error e
          | .ok tbv =>
            match tbv with
            | some (.arr xs) =>
              .ok (emitOut s pid?
                ⟨.error, some (.str (String.intercalate "\n" (xs.map joinElem))),
                 none, none⟩)
            | _ => .error "TypeError: traceback.join is not a function"
        else if mt = "execute_reply" then
          match jget m.content "execution_count" with
          | .error e => .error e
          | .ok ecv =>
            match ecv with
            | some v =>
              if truthy v then .ok ({ s with executionCount := v }, [])
              else .ok (s, [])
            | none => .ok (s, [])
        else .ok (s, [])
      | _ => .ok (s, [])

/-- Side effects of `interrupt()` other than returning: an OS `SIGINT` to the
kernel process and a protocol interrupt request on the control channel. -/
inductive IAction where
  | sigint (pid : Nat)
  | controlSend
deriving DecidableEq

/-- `KernelManager.interrupt`: when a process with a truthy pid exists, send
`SIGINT` and, when control socket and protocol exist, a protocol interrupt;
otherwise the call does nothing and resolves successfully (it never
throws). -/
def interruptCall (s : KM) : Except String (List IAction) :=
  .ok (if s.hasProcess then
        match s.pid with
        | some p =>
          if p ≠ 0 then
            IAction.sigint p ::
              (if s.hasControl ∧ s.hasProtocol then [IAction.controlSend] else [])
          else []
        | none => []
      else [])

/-- The synchronous prefix of `KernelManager.execute`: throw
`Error('Kernel not started')` when there is no shell socket or no protocol;
otherwise register the pending execution for the fresh message id (a new
unresolved completion promise is created alongside its map entry). -/
def executeCall (s : KM) (msgId : String) : Except String KM :=
  if s.hasShell ∧ s.hasProtocol then
    .ok { s with pending := mset msgId [] s.pending,
                 promises := mset msgId false s.promises }
  else .error "Kernel not started"

/-- The shell-reply step of `execute`: the source parses the reply frames and
discards the result (`this.protocol.parseMessage(buffers);`), so the manager
state is unchanged — in particular the execution counter is not read from
shell replies. -/
def processShellReply (s : KM) (_frames : List String) : KM := s

/-- `KernelManager`'s private `cleanup`: forget the connection descriptor and
protocol and clear the pending-execution map. Clearing the map drops each
entry's `resolve` callback without invoking it, so the `promises` resolution
flags are untouched. -/
def cleanupFx (s : KM) : KM := { s with hasProtocol := false, pending := [] }

/-- `KernelManager.shutdown`: set state `dead`, close the three sockets, kill
and drop the process, then run `cleanup`. -/
def shutdownFx (s : KM) : KM × List Emitted :=
  let r := setState s .dead
  let s2 := { r.1 with hasShell := false, hasIopub := false, hasControl := false,
                       hasProcess := false, pid := none, iopubAlive := false }
  (cleanupFx s2, r.2)

/-- The events that drive a `KernelManager` instance. `startBegin` is the
prefix of `start()` up to and including starting the iopub listener (shutdown
of a previous process, `setState('starting')`, spawn, socket connect,
protocol creation); `handshakeDone` is the final `setState('idle')` of
`start()`; `iopub` is one broadcast delivered to the listener; `execReg` is
the synchronous prefix of `execute`; the rest are the process-exit and
process-error handlers and `shutdown()`. -/
inductive KEvent where
  | startBegin
  | handshakeDone
  | iopub (m : JupyterMessage)
  | execReg (msgId : String)
  | procExit
  | procError
  | shutdownCall

/-- One step of the manager: the state transition and the events emitted to
subscribers. A thrown iopub handler is caught by the listener loop, which
emits `error` unless the state is dead/disconnected and then stops
(`iopubAlive := false`); a throwing `execute` prefix leaves the state
unchanged (the error propagates to the caller). -/
def kstep (s : KM) (e : KEvent) : KM × List Emitted :=
  match e with
  | .startBegin =>
    let r1 := if s.hasProcess then shutdownFx s else (s, [])
    let r2 := setState r1.1 .starting
    ({ r2.1 with hasProcess := true, pid := some 1, hasShell := true,
                 hasIopub := true, hasControl := true, hasProtocol := true,
                 iopubAlive := true }, r1.2 ++ r2.2)
  | .handshakeDone => setState s .idle
  | .iopub m =>
    if s.iopubAlive then
      if s.hasProtocol then
        match handleIopubMessage s m with
        | .ok r => r
        | .error _ =>
          ({ s with iopubAlive := false },
           if s.state = .dead ∨ s.state = .disconnected then [] else [.errorEv])
      else
        ({ s with iopubAlive := false },
         if s.state = .dead ∨ s.state = .disconnected then [] else [.errorEv])
    else (s, [])
  | .execReg msgId =>
    match executeCall s msgId with
    | .ok s' => (s', [])
    | .error _ => (s, [])
  | .procExit =>
    let r := setState s .dead
    (cleanupFx r.1, r.2)
  | .procError =>
    let r := setState s .dead
    (r.1, r.2 ++ [.errorEv])
  | .shutdownCall => shutdownFx s

/-- Run a sequence of events from a state. -/
def kmRun (s : KM) (evs : List KEvent) : KM :=
  evs.foldl (fun s e => (kstep s e).1) s

/-- The sequence of states visited while running a sequence of events. -/
def statesTrace (s : KM) : List KEvent → List KernelState
  | [] => [s.state]
  | e :: es => s.state :: statesTrace (kstep s e).1 es

/-- The payloads of the `stateChange` events in an emitted-event list. -/
def emittedStates : List Emitted → List KernelState
  | [] => []
  | .stateChange st :: es => st :: emittedStates es
  | _ :: es => emittedStates es

/-- The `stateChange` payloads produced by a sequence of `setState` calls. -/
def stateChangesOf (s : KM) : List KernelState → List KernelState
  | [] => []
  | ns :: rest =>
    emittedStates (setState s ns).2 ++ stateChangesOf (setState s ns).1 rest

/-! ### Claims about the codec -/

/-- C2: for every well-formed message (header, parent_header, metadata,
content all JSON-serializable), `parseMessage (serializeMessage msg)` returns
a message whose header, parent_header, metadata and content equal those of
`msg` (and it neither fails nor warns, whatever the signing key). -/
theorem claim2_roundtrip (key : String) (h p m c : Json) (bufs : List String) :
    parseMessage key (serializeMessage key ⟨h, p, m, c, bufs⟩) =
      .ok ⟨some ⟨h, p, m, c, []⟩, []⟩ := by
  simp only [serializeMessage, parseMessage]
  rw [show findDelim [delimS,
      sign key [Json.encode h, Json.encode p, Json.encode m, Json.encode c],
      Json.encode h, Json.encode p, Json.encode m, Json.encode c] = some 0 from by
    simp [findDelim]]
  simp [Json.parse_encode]

/-- Helper: a found delimiter index is within the frame list. -/
theorem findDelim_lt (frames : List String) (i : Nat) (h : findDelim frames = some i) :
    i < frames.length := by
  induction frames generalizing i with
  | nil => simp [findDelim] at h
  | cons f rest ih =>
    by_cases hf : f = delimS
    · simp [findDelim, hf] at h
      simp only [List.length_cons]
      omega
    · simp [findDelim, hf] at h
      obtain ⟨j, hj, rfl⟩ := h
      have := ih j hj
      simp only [List.length_cons]
      omega

/-- C6: for every frame sequence, `parseMessage` returns no message (the
`null` return, without throwing) when the delimiter frame is absent, or when
the delimiter is found at index `i` but fewer than five frames follow it. -/
theorem claim6_parse_failure (key : String) (frames : List String) :
    (findDelim frames = none →
      parseMessage key frames = .ok ⟨none, []⟩) ∧
    (∀ i, findDelim frames = some i → frames.length < i + 6 →
      parseMessage key frames = .ok ⟨none, []⟩) := by
  constructor
  · intro h
    simp only [parseMessage]
    rw [h]
  · intro i hi hlen
    have hd : (frames.drop i).length < 6 := by
      simp only [List.length_drop]
      omega
    simp only [parseMessage]
    rw [hi]
    dsimp only
    rcases h0 : frames.drop i with _ | ⟨a, _ | ⟨b, _ | ⟨c2, _ | ⟨d2, _ | ⟨e2, _ | ⟨f2, tl⟩⟩⟩⟩⟩⟩
    all_goals try rfl
    exfalso
    rw [h0] at hd
    simp only [List.length_cons] at hd
    omega

/-- C6 witness: a frame sequence with no delimiter parses to the absent
result without throwing, and so does one whose delimiter is followed by too
few frames. -/
theorem claim6_witness :
    findDelim ["a", "b"] = none ∧
    parseMessage "k" ["a", "b"] = .ok ⟨none, []⟩ ∧
    findDelim [delimS, "sig", "x"] = some 0 ∧
    parseMessage "k" [delimS, "sig", "x"] = .ok ⟨none, []⟩ := by
  refine ⟨by simp +decide [findDelim, delimS], ?_, by simp [findDelim], ?_⟩
  · exact (claim6_parse_failure "k" ["a", "b"]).1 (by simp +decide [findDelim, delimS])
  · exact (claim6_parse_failure "k" [delimS, "sig", "x"]).2 0 (by simp [findDelim]) (by simp)

/-- C7: with a signing key configured and a nonempty signature frame that
does not match the recomputed digest over the four parts, `parseMessage`
logs the mismatch warning and still returns the parsed message with its
buffers — a signature mismatch never rejects the message. -/
theorem claim7_signature_mismatch (key sig : String) (h p m c : Json)
    (bufs : List String) (hk : key ≠ "") (hsig : sig ≠ "")
    (hmm : sig ≠ sign key [Json.encode h, Json.encode p, Json.encode m, Json.encode c]) :
    parseMessage key
      (delimS :: sig :: Json.encode h :: Json.encode p :: Json.encode m ::
        Json.encode c :: bufs) =
      .ok ⟨some ⟨h, p, m, c, bufs⟩, ["Message signature mismatch"]⟩ := by
  simp only [parseMessage]
  rw [show findDelim (delimS :: sig :: Json.encode h :: Json.encode p ::
      Json.encode m :: Json.encode c :: bufs) = some 0 from by simp [findDelim]]
  simp [Json.parse_encode, hk, hsig, hmm]

/-- C7 witness: a concrete mismatching nonempty signature under a configured
key warns and still returns the message and buffers. -/
theorem claim7_witness :
    parseMessage "k" (delimS :: "x" :: Json.encode (Json.obj []) ::
        Json.encode (Json.obj []) :: Json.encode (Json.obj []) ::
        Json.encode (Json.obj []) :: ["B"]) =
      .ok ⟨some ⟨.obj [], .obj [], .obj [], .obj [], ["B"]⟩,
           ["Message signature mismatch"]⟩ :=
  claim7_signature_mismatch "k" "x" (.obj []) (.obj []) (.obj []) (.obj []) ["B"]
    (by decide) (by decide)
    (by
      unfold Json.encode
      rw [show encJ (Json.obj []) = [lbrace, rbrace] from by simp [encJ]]
      decide)

/-- The concrete message carrying an attached binary buffer used to refute
C9. -/
def bufMsg : JupyterMessage := ⟨.obj [], .obj [], .obj [], .obj [], ["BUFDATA"]⟩

/-- C9 counterexample: a message carrying an attached binary buffer
serializes to exactly the six frames — the buffer does not appear as a
trailing frame (nor anywhere else), contradicting the claimed
`[..., content-json, ...binary-buffers]` layout. -/
theorem claim9_counterexample :
    bufMsg.buffers = ["BUFDATA"] ∧
    serializeMessage "" bufMsg =
      [delimS, "", Json.encode (Json.obj []), Json.encode (Json.obj []),
       Json.encode (Json.obj []), Json.encode (Json.obj [])] ∧
    ¬ "BUFDATA" ∈ serializeMessage "" bufMsg := by
  have henc : Json.encode (Json.obj []) = String.mk [lbrace, rbrace] := by
    unfold Json.encode
    rw [show encJ (Json.obj []) = [lbrace, rbrace] from by simp [encJ]]
  refine ⟨rfl, by simp [serializeMessage, sign, bufMsg], ?_⟩
  simp only [serializeMessage, bufMsg, henc]
  decide

/-- C9 as amended: `serializeMessage` produces exactly the six frames
delimiter, signature over the four encoded parts, header, parent_header,
metadata and content; attached binary buffers are not serialized. -/
theorem claim9_frames_amended (key : String) (msg : JupyterMessage) :
    serializeMessage key msg =
      [delimS,
       sign key [Json.encode msg.header, Json.encode msg.parent_header,
                 Json.encode msg.metadata, Json.encode msg.content],
       Json.encode msg.header, Json.encode msg.parent_header,
       Json.encode msg.metadata, Json.encode msg.content] := rfl

/-! ### Helper lemmas about the manager's map and state operations -/

/-- Deleting a key removes it from lookup. -/
theorem lookup_mdelete_self (k : String) (l : List (String × α)) :
    List.lookup k (mdelete k l) = none := by
  induction l with
  | nil => rfl
  | cons kv rest ih =>
    by_cases h : kv.1 = k
    · rw [show mdelete k (kv :: rest) = mdelete k rest from by
        simp [mdelete, List.filter_cons, h]]
      exact ih
    · rw [show mdelete k (kv :: rest) = kv :: mdelete k rest from by
        simp [mdelete, List.filter_cons, h]]
      have hb : (k == kv.1) = false := by
        simp
        exact fun he => h he.symm
      rw [show List.lookup k (kv :: mdelete k rest) = List.lookup k (mdelete k rest)
        from by simp [List.lookup, hb]]
      exact ih

/-- Deleting another key leaves a lookup unchanged. -/
theorem lookup_mdelete_ne (k k' : String) (hne : k' ≠ k) (l : List (String × α)) :
    List.lookup k' (mdelete k l) = List.lookup k' l := by
  induction l with
  | nil => rfl
  | cons kv rest ih =>
    by_cases h : kv.1 = k
    · rw [show mdelete k (kv :: rest) = mdelete k rest from by
        simp [mdelete, List.filter_cons, h]]
      have hb : (k' == kv.1) = false := by
        simp
        intro he
        exact hne (by rw [he, h])
      rw [ih]
      simp [List.lookup, hb]
    · rw [show mdelete k (kv :: rest) = kv :: mdelete k rest from by
        simp [mdelete, List.filter_cons, h]]
      by_cases h2 : k' = kv.1
      · simp [List.lookup, h2]
      · have hb : (k' == kv.1) = false := by simpa using h2
        simp [List.lookup, hb]
        exact ih

/-- Setting a key makes it the lookup result. -/
theorem lookup_mset_self (k : String) (v : α) (l : List (String × α)) :
    List.lookup k (mset k v l) = some v := by
  simp [mset, List.lookup]

/-- Setting another key leaves a lookup unchanged. -/
theorem lookup_mset_ne (k k' : String) (hne : k' ≠ k) (v : α) (l : List (String × α)) :
    List.lookup k' (mset k v l) = List.lookup k' l := by
  have hb : (k' == k) = false := by simpa using hne
  simp only [mset, List.lookup, hb]
  exact lookup_mdelete_ne k k' hne l

/-- Appending an output to an entry does not change which keys are present.-/
theorem lookup_pushOutput_none (p k : String) (o : KernelOutput)
    (l : List (String × List KernelOutput)) (h : List.lookup k l = none) :
    List.lookup k (pushOutput p o l) = none := by
  induction l with
  | nil => rfl
  | cons kv rest ih =>
    have hk : ¬ k = kv.1 := by
      intro he
      rw [show List.lookup k (kv :: rest) = some kv.2 from by
        simp [List.lookup, he]] at h
      exact Option.noConfusion h
    have htail : List.lookup k rest = none := by
      have hb : (k == kv.1) = false := by simpa using hk
      simpa [List.lookup, hb] using h
    have hb : (k == kv.1) = false := by simpa using hk
    by_cases hp : kv.1 = p
    · simp only [pushOutput, List.map_cons, hp, if_pos]
      rw [show ((p, kv.2 ++ [o]) : String × List KernelOutput) = (p, kv.2 ++ [o]) from rfl]
      have hbp : (k == p) = false := by
        rw [← hp]
        exact hb
      simp [List.lookup, hbp]
      simpa [pushOutput] using ih htail
    · simp only [pushOutput, List.map_cons, hp, if_neg, not_false_eq_true]
      simp [List.lookup, hb]
      simpa [pushOutput] using ih htail

/-- `setState` never changes any field but `state`. -/
theorem setState_fields (s : KM) (ns : KernelState) :
    (setState s ns).1.state = ns ∧
    (setState s ns).1.pending = s.pending ∧
    (setState s ns).1.promises = s.promises ∧
    (setState s ns).1.executionCount = s.executionCount := by
  by_cases h : s.state = ns <;> simp [setState, h]

/-- `emitOut` never changes any field but `pending`, and preserves absence of
a pending key. -/
theorem emitOut_fields (s : KM) (pid? : Option String) (o : KernelOutput) :
    (emitOut s pid? o).1.state = s.state ∧
    (emitOut s pid? o).1.promises = s.promises ∧
    (emitOut s pid? o).1.executionCount = s.executionCount := by
  cases pid? with
  | none => simp [emitOut]
  | some p =>
    by_cases h : (List.lookup p s.pending).isSome <;> simp [emitOut, h]

/-- `emitOut` preserves the absence of a key from the pending map. -/
theorem emitOut_pending_none (s : KM) (pid? : Option String) (o : KernelOutput)
    (k : String) (h : List.lookup k s.pending = none) :
    List.lookup k (emitOut s pid? o).1.pending = none := by
  cases pid? with
  | none => simpa [emitOut] using h
  | some p =>
    by_cases hp : (List.lookup p s.pending).isSome
    · rw [show (emitOut s (some p) o).1.pending = pushOutput p o s.pending from by
        simp [emitOut, hp]]
      exact lookup_pushOutput_none p k o s.pending h
    · simpa [emitOut, hp] using h

/-- Shape of a successful `dispPlain`: the state is unchanged or an
`emitOut` update. -/
theorem dispPlain_shape (s : KM) (pid? : Option String) (dv : Json)
    (r : KM × List Emitted) (h : dispPlain s pid? dv = .ok r) :
    r.1 = s ∨ ∃ o, r.1 = (emitOut s pid? o).1 := by
  unfold dispPlain at h
  split at h
  · exact Except.noConfusion h
  · split at h
    · simp only [Except.ok.injEq] at h
      exact Or.inr ⟨_, by rw [← h]⟩
    · simp only [Except.ok.injEq] at h
      exact Or.inl (by rw [← h])

/-- Shape of a successful `dispJson`. -/
theorem dispJson_shape (s : KM) (pid? : Option String) (dv : Json)
    (r : KM × List Emitted) (h : dispJson s pid? dv = .ok r) :
    r.1 = s ∨ ∃ o, r.1 = (emitOut s pid? o).1 := by
  unfold dispJson at h
  split at h
  · exact Except.noConfusion h
  · split at h
    · split at h
      · split at h
        · simp only [Except.ok.injEq] at h
          exact Or.inr ⟨_, by rw [← h]⟩
        · exact Except.noConfusion h
      · exact dispPlain_shape _ _ _ _ h
    · exact dispPlain_shape _ _ _ _ h

/-- Shape of a successful `dispHtml`. -/
theorem dispHtml_shape (s : KM) (pid? : Option String) (dv : Json)
    (r : KM × List Emitted) (h : dispHtml s pid? dv = .ok r) :
    r.1 = s ∨ ∃ o, r.1 = (emitOut s pid? o).1 := by
  unfold dispHtml at h
  split at h
  · exact Except.noConfusion h
  · split at h
    · split at h
      · simp only [Except.ok.injEq] at h
        exact Or.inr ⟨_, by rw [← h]⟩
      · exact dispJson_shape _ _ _ _ h
    · exact dispJson_shape _ _ _ _ h

/-- Shape of a successful `dispJpeg`. -/
theorem dispJpeg_shape (s : KM) (pid? : Option String) (dv : Json)
    (r : KM × List Emitted) (h : dispJpeg s pid? dv = .ok r) :
    r.1 = s ∨ ∃ o, r.1 = (emitOut s pid? o).1 := by
  unfold dispJpeg at h
  split at h
  · exact Except.noConfusion h
  · split at h
    · split at h
      · simp only [Except.ok.injEq] at h
        exact Or.inr ⟨_, by rw [← h]⟩
      · exact dispHtml_shape _ _ _ _ h
    · exact dispHtml_shape _ _ _ _ h

/-- Shape of a successful `displayBranch`. -/
theorem displayBranch_shape (s : KM) (pid? : Option String) (dv : Json)
    (r : KM × List Emitted) (h : displayBranch s pid? dv = .ok r) :
    r.1 = s ∨ ∃ o, r.1 = (emitOut s pid? o).1 := by
  unfold displayBranch at h
  split at h
  · exact Except.noConfusion h
  · split at h
    · split at h
      · simp only [Except.ok.injEq] at h
        exact Or.inr ⟨_, by rw [← h]⟩
      · exact dispJpeg_shape _ _ _ _ h
    · exact dispJpeg_shape _ _ _ _ h

/-- Every state a successful `handleIopubMessage` can produce: unchanged, a
`setState` to busy or idle, an idle `setState` with one pending execution
resolved, an `emitOut` update, or an execution-counter update. -/
theorem handleIopub_shape (s : KM) (m : JupyterMessage) (r : KM × List Emitted)
    (h : handleIopubMessage s m = .ok r) :
    r.1 = s
    ∨ r.1 = (setState s .busy).1
    ∨ r.1 = (setState s .idle).1
    ∨ (∃ p, r.1 = { (setState s .idle).1 with
          pending := mdelete p (setState s .idle).1.pending,
          promises := mset p true (setState s .idle).1.promises }
        ∧ (List.lookup p (setState s .idle).1.pending).isSome = true)
    ∨ (∃ pid o, r.1 = (emitOut s pid o).1)
    ∨ (∃ v, r.1 = { s with executionCount := v }) := by
  unfold handleIopubMessage at h
  dsimp only at h
  split at h
  · exact Except.noConfusion h
  · split at h
    · exact Except.noConfusion h
    · split at h
      · split at h
        · -- status branch
          split at h
          · exact Except.noConfusion h
          · split at h
            · split at h
              · simp only [Except.ok.injEq] at h
                exact Or.inr (Or.inl (by rw [← h]))
              · split at h
                · split at h
                  · split at h
                    · simp only [Except.ok.injEq] at h
                      rename_i p hpeq hsome
                      refine Or.inr (Or.inr (Or.inr (Or.inl ⟨p, by rw [← h], hsome⟩)))
                    · simp only [Except.ok.injEq] at h
                      exact Or.inr (Or.inr (Or.inl (by rw [← h])))
                  · simp only [Except.ok.injEq] at h
                    exact Or.inr (Or.inr (Or.inl (by rw [← h])))
                · simp only [Except.ok.injEq] at h
                  exact Or.inl (by rw [← h])
            · simp only [Except.ok.injEq] at h
              exact Or.inl (by rw [← h])
        · split at h
          · -- stream branch
            split at h
            · exact Except.noConfusion h
            · split at h
              · exact Except.noConfusion h
              · simp only [Except.ok.injEq] at h
                exact Or.inr (Or.inr (Or.inr (Or.inr (Or.inl ⟨_, _, by rw [← h]⟩))))
          · split at h
            · -- display branch
              split at h
              · exact Except.noConfusion h
              · split at h
                · exact Except.noConfusion h
                · rcases displayBranch_shape _ _ _ _ h with h1 | ⟨o, h1⟩
                  · exact Or.inl h1
                  · exact Or.inr (Or.inr (Or.inr (Or.inr (Or.inl ⟨_, o, h1⟩))))
            · split at h
              · -- error branch
                split at h
                · exact Except.noConfusion h
                · split at h
                  · simp only [Except.ok.injEq] at h
                    exact Or.inr (Or.inr (Or.inr (Or.inr (Or.inl ⟨_, _, by rw [← h]⟩))))
                  · exact Except.noConfusion h
              · split at h
                · -- execute_reply branch
                  split at h
                  · exact Except.noConfusion h
                  · split at h
                    · split at h
                      · simp only [Except.ok.injEq] at h
                        exact Or.inr (Or.inr (Or.inr (Or.inr (Or.inr ⟨_, by rw [← h]⟩))))
                      · simp only [Except.ok.injEq] at h
                        exact Or.inl (by rw [← h])
                    · simp only [Except.ok.injEq] at h
                      exact Or.inl (by rw [← h])
                · simp only [Except.ok.injEq] at h
                  exact Or.inl (by rw [← h])
      · simp only [Except.ok.injEq] at h
        exact Or.inl (by rw [← h])

/-- Definitional unfolding of `kstep` on an iopub delivery. -/
theorem kstep_iopub_eq (s : KM) (m : JupyterMessage) :
    kstep s (.iopub m) =
      (if s.iopubAlive then
        if s.hasProtocol then
          match handleIopubMessage s m with
          | .ok r => r
          | .error _ =>
            ({ s with iopubAlive := false },
             if s.state = .dead ∨ s.state = .disconnected then [] else [.errorEv])
        else
          ({ s with iopubAlive := false },
           if s.state = .dead ∨ s.state = .disconnected then [] else [.errorEv])
      else (s, [])) := rfl

/-- Definitional unfolding of `kstep` on the `execute` registration prefix. -/
theorem kstep_execReg_eq (s : KM) (msgId : String) :
    kstep s (.execReg msgId) =
      (match executeCall s msgId with
       | .ok s' => (s', [])
       | .error _ => (s, [])) := rfl

/-- Fields of `shutdownFx`: it empties the pending map, leaves the promise
flags untouched, and lands in state `dead`. -/
theorem shutdownFx_fields (s : KM) :
    (shutdownFx s).1.pending = [] ∧
    (shutdownFx s).1.promises = s.promises ∧
    (shutdownFx s).1.state = .dead := by
  refine ⟨rfl, ?_, ?_⟩
  · exact (setState_fields s .dead).2.2.1
  · exact (setState_fields s .dead).1

/-- The state edges each event can take, as actually implemented: `start`
moves to `starting` (from any state), the handshake completion to `idle`,
an iopub broadcast only to `busy` or `idle` (from any live state), the
execute prefix never changes the state, and process exit, process error and
shutdown move to `dead`. -/
def edgeOK : KEvent → KernelState → Prop
  | .startBegin, ns => ns = .starting
  | .handshakeDone, ns => ns = .idle
  | .iopub _, ns => ns = .busy ∨ ns = .idle
  | .execReg _, _ => False
  | .procExit, ns => ns = .dead
  | .procError, ns => ns = .dead
  | .shutdownCall, ns => ns = .dead

/-- C3 as amended: whenever a step changes the kernel state, the change
follows the per-event edges of `edgeOK`; an iopub broadcast can move to
`busy` from any live state, not only from `idle`. -/
theorem claim3_edges_amended (s : KM) (e : KEvent)
    (h : (kstep s e).1.state ≠ s.state) : edgeOK e (kstep s e).1.state := by
  cases e with
  | startBegin =>
    show (kstep s .startBegin).1.state = .starting
    exact (setState_fields (if s.hasProcess then shutdownFx s else (s, [])).1 .starting).1
  | handshakeDone =>
    show (kstep s .handshakeDone).1.state = .idle
    exact (setState_fields s .idle).1
  | procExit =>
    show (kstep s .procExit).1.state = .dead
    exact (setState_fields s .dead).1
  | procError =>
    show (kstep s .procError).1.state = .dead
    exact (setState_fields s .dead).1
  | shutdownCall =>
    show (kstep s .shutdownCall).1.state = .dead
    exact (shutdownFx_fields s).2.2
  | execReg msgId =>
    exfalso
    apply h
    rw [kstep_execReg_eq]
    unfold executeCall
    by_cases hg : s.hasShell ∧ s.hasProtocol
    · rw [if_pos hg]
    · rw [if_neg hg]
  | iopub m =>
    by_cases ha : s.iopubAlive
    · by_cases hp : s.hasProtocol
      · cases hok : handleIopubMessage s m with
        | error e =>
          exfalso
          apply h
          rw [kstep_iopub_eq]
          simp only [ha, hp, if_true, hok]
        | ok r =>
          have hst : (kstep s (.iopub m)).1 = r.1 := by
            rw [kstep_iopub_eq]
            simp only [ha, hp, if_true, hok]
          rcases handleIopub_shape s m r hok with h1 | h1 | h1 | ⟨p, h1, _⟩ | ⟨pid, o, h1⟩ | ⟨v, h1⟩
          · exfalso; apply h; rw [hst, h1]
          · exact Or.inl (by rw [hst, h1, (setState_fields s .busy).1])
          · exact Or.inr (by rw [hst, h1, (setState_fields s .idle).1])
          · refine Or.inr ?_
            rw [hst, h1]
            exact (setState_fields s .idle).1
          · exfalso; apply h; rw [hst, h1, (emitOut_fields s pid o).1]
          · exfalso; apply h; rw [hst, h1]
      · exfalso
        apply h
        rw [kstep_iopub_eq]
        simp only [ha, hp, if_true, if_false, Bool.false_eq_true]
    · exfalso
      apply h
      rw [kstep_iopub_eq]
      simp only [ha, if_false, Bool.false_eq_true]

/-- The concrete busy-status broadcast used to refute C3. -/
def busyStatusMsg : JupyterMessage :=
  ⟨.obj [("msg_type", .str "status")], .obj [], .obj [],
   .obj [("execution_state", .str "busy")], []⟩

/-- Whether one adjacent state pair respects "busy is entered only from
idle" (staying busy allowed). -/
def busyEntryOk (a b : KernelState) : Bool :=
  !(b == KernelState.busy) || (a == KernelState.idle) || (a == KernelState.busy)

/-- Whether a whole state trace respects "busy is entered only from idle". -/
def chainBusyOk : List KernelState → Bool
  | a :: b :: rest => busyEntryOk a b && chainBusyOk (b :: rest)
  | _ => true

/-- C3 counterexample: starting from a fresh manager, `start()` followed by a
busy status broadcast during the handshake yields the reachable trace
disconnected → starting → busy, entering `busy` from `starting`, not from
`idle` — the claimed edge discipline is violated. -/
theorem claim3_counterexample :
    statesTrace km0 [KEvent.startBegin, KEvent.iopub busyStatusMsg] =
      [KernelState.disconnected, KernelState.starting, KernelState.busy] ∧
    chainBusyOk (statesTrace km0 [KEvent.startBegin, KEvent.iopub busyStatusMsg]) = false :=
  ⟨rfl, rfl⟩

/-- C3 witness: the amended edge theorem applied at a concrete changing
step. -/
theorem claim3_witness :
    (kstep km0 KEvent.startBegin).1.state ≠ km0.state ∧
    edgeOK KEvent.startBegin (kstep km0 KEvent.startBegin).1.state :=
  ⟨by decide, claim3_edges_amended km0 .startBegin (by decide)⟩

/-- C10: `setState` emits a `stateChange` event exactly when the new state
differs from the current one, a no-op assignment emits nothing, the stored
state always ends up equal to the argument, and consequently the stream of
`stateChange` payloads produced by any sequence of `setState` calls never
carries the same state twice in a row. -/
theorem claim10_setstate_events (s : KM) (ns : KernelState)
    (reqs : List KernelState) :
    ((setState s ns).2 = [Emitted.stateChange ns] ↔ s.state ≠ ns) ∧
    ((setState s ns).2 = [] ↔ s.state = ns) ∧
    (setState s ns).1.state = ns ∧
    List.Chain' (fun a b => a ≠ b) (s.state :: stateChangesOf s reqs) := by
  have key : ∀ (l : List KernelState) (s : KM),
      List.Chain' (fun a b => a ≠ b) (s.state :: stateChangesOf s l) := by
    intro l
    induction l with
    | nil =>
      intro s
      simp [stateChangesOf]
    | cons r rest ih =>
      intro s
      by_cases h : s.state = r
      · have e1 : setState s r = (s, []) := by simp [setState, h]
        simp only [stateChangesOf, e1, emittedStates, List.nil_append]
        exact ih s
      · have e1 : setState s r = ({ s with state := r }, [.stateChange r]) := by
          simp [setState, h]
        simp only [stateChangesOf, e1, emittedStates, List.cons_append,
          List.nil_append]
        rw [List.chain'_cons]
        exact ⟨h, ih { s with state := r }⟩
  refine ⟨?_, ?_, (setState_fields s ns).1, key reqs s⟩
  · by_cases h : s.state = ns <;> simp [setState, h]
  · by_cases h : s.state = ns <;> simp [setState, h]

/-- C8 counterexample: on a fresh manager (no process, no shell socket, no
protocol), `interrupt()` resolves successfully as a silent no-op — it takes
no action and raises no error, contradicting the claimed fail-fast error. -/
theorem claim8_counterexample :
    km0.hasProcess = false ∧ km0.hasShell = false ∧ km0.hasProtocol = false ∧
    interruptCall km0 = .ok [] :=
  ⟨rfl, rfl, rfl, rfl⟩

/-- C8 as amended: without an active session, `execute` fails fast with the
descriptive, catchable `Error('Kernel not started')`, while `interrupt`
silently succeeds with no action taken (it neither errors nor crashes). -/
theorem claim8_no_session_amended (s : KM) (msgId : String)
    (hsh : s.hasShell = false) (hpr : s.hasProcess = false) :
    executeCall s msgId = .error "Kernel not started" ∧
    interruptCall s = .ok [] := by
  constructor
  · unfold executeCall
    rw [if_neg]
    intro hc
    rw [hsh] at hc
    exact Bool.false_ne_true hc.1
  · unfold interruptCall
    rw [if_neg]
    rw [hpr]
    exact Bool.false_ne_true

/-- C8 witness: the amended theorem applied to the fresh manager. -/
theorem claim8_witness :
    km0.hasShell = false ∧ km0.hasProcess = false ∧
    executeCall km0 "m" = .error "Kernel not started" ∧
    interruptCall km0 = .ok [] :=
  ⟨rfl, rfl, (claim8_no_session_amended km0 "m" rfl rfl).1,
   (claim8_no_session_amended km0 "m" rfl rfl).2⟩

/-- The manager state after `start()` has connected and begun listening. -/
def kmReady : KM := (kstep km0 KEvent.startBegin).1

/-- The concrete `execute_reply` broadcast used to refute C5. -/
def execReplyMsg : JupyterMessage :=
  ⟨.obj [("msg_type", .str "execute_reply")], .obj [], .obj [],
   .obj [("execution_count", .num 5)], []⟩

/-- C5 counterexample: an `execute_reply` handled by the iopub message
handler does update the execution counter (0 becomes 5), while the shell
reply path of `execute` parses and discards its message, leaving the manager
— counter included — unchanged; the counter is not updated from the shell
channel. -/
theorem claim5_counterexample :
    kmReady.executionCount = Json.num 0 ∧
    handleIopubMessage kmReady execReplyMsg =
      .ok ({ kmReady with executionCount := Json.num 5 }, []) ∧
    processShellReply kmReady (serializeMessage "" execReplyMsg) = kmReady :=
  ⟨rfl, rfl, rfl⟩

/-- C5 as amended: the running execution counter is updated by the iopub
message handler, which overwrites it with the `execution_count` of every
`execute_reply` it receives whose value is truthy (so the last truthy value
wins and no ordering reconciliation happens), while the shell-channel reply
processing in `execute` never changes the manager state at all. -/
theorem claim5_counter_amended (s : KM) (m : JupyterMessage)
    (pidv ecv : Option Json)
    (hpar : jget m.parent_header "msg_id" = .ok pidv)
    (hmt : jget m.header "msg_type" = .ok (some (.str "execute_reply")))
    (hec : jget m.content "execution_count" = .ok ecv) :
    (handleIopubMessage s m =
      match ecv with
      | some v =>
        if truthy v then .ok ({ s with executionCount := v }, []) else .ok (s, [])
      | none => .ok (s, [])) ∧
    (∀ frames, processShellReply s frames = s) := by
  refine ⟨?_, fun _ => rfl⟩
  unfold handleIopubMessage
  rw [hpar]
  dsimp only
  rw [hmt]
  rcases ecv with _ | v
  · simp +decide [hec]
  · by_cases ht : truthy v
    · simp +decide [hec, ht]
    · simp +decide [hec, ht]

/-- C5 witness: the amended theorem applied at a concrete `execute_reply`
with truthy `execution_count` 5. -/
theorem claim5_witness :
    handleIopubMessage kmReady execReplyMsg =
      .ok ({ kmReady with executionCount := Json.num 5 }, []) ∧
    processShellReply kmReady ["frame"] = kmReady := by
  have h := claim5_counter_amended kmReady execReplyMsg none (some (.num 5))
    rfl rfl rfl
  exact ⟨h.1, h.2 ["frame"]⟩

/-- The truthy value of a representation key in a data object, if any. -/
def lookupTruthy (k : String) (kvs : List (String × Json)) : Option Json :=
  match List.lookup k kvs with
  | some v => if truthy v then some v else none
  | none => none

/-- A display/result message is handled entirely by `displayBranch` on its
`data` object. -/
theorem handleIopub_display (s : KM) (m : JupyterMessage) (pidv : Option Json)
    (kvs : List (String × Json)) (t : String)
    (hpar : jget m.parent_header "msg_id" = .ok pidv)
    (hmt : jget m.header "msg_type" = .ok (some (.str t)))
    (ht : t = "display_data" ∨ t = "execute_result")
    (hdata : jget m.content "data" = .ok (some (.obj kvs))) :
    handleIopubMessage s m = displayBranch s (parentIdOf pidv) (.obj kvs) := by
  unfold handleIopubMessage
  rw [hpar]
  dsimp only
  rw [hmt]
  rcases ht with rfl | rfl
  · simp +decide [hdata]
  · simp +decide [hdata]

/-- A truthy `image/png` representation short-circuits `displayBranch`. -/
theorem displayBranch_png (s : KM) (pid? : Option String)
    (kvs : List (String × Json)) (v : Json)
    (hl : List.lookup "image/png" kvs = some v) (ht : truthy v = true) :
    displayBranch s pid? (.obj kvs) =
      .ok (emitOut s pid? ⟨.display, some v, some "image/png", none⟩) := by
  unfold displayBranch
  rw [show jget (Json.obj kvs) "image/png" = .ok (List.lookup "image/png" kvs)
    from rfl, hl]
  simp [ht]

/-- A non-truthy `image/png` representation falls through to the jpeg
stage. -/
theorem displayBranch_skip_png (s : KM) (pid? : Option String)
    (kvs : List (String × Json)) (h : lookupTruthy "image/png" kvs = none) :
    displayBranch s pid? (.obj kvs) = dispJpeg s pid? (.obj kvs) := by
  unfold displayBranch
  rw [show jget (Json.obj kvs) "image/png" = .ok (List.lookup "image/png" kvs)
    from rfl]
  cases hl : List.lookup "image/png" kvs with
  | none => rfl
  | some v =>
    have hv : truthy v = false := by
      cases hbool : truthy v with
      | true => simp [lookupTruthy, hl, hbool] at h
      | false => rfl
    simp [hv]

/-- A truthy `image/jpeg` representation short-circuits `dispJpeg`. -/
theorem dispJpeg_hit (s : KM) (pid? : Option String)
    (kvs : List (String × Json)) (v : Json)
    (hl : List.lookup "image/jpeg" kvs = some v) (ht : truthy v = true) :
    dispJpeg s pid? (.obj kvs) =
      .ok (emitOut s pid? ⟨.display, some v, some "image/jpeg", none⟩) := by
  unfold dispJpeg
  rw [show jget (Json.obj kvs) "image/jpeg" = .ok (List.lookup "image/jpeg" kvs)
    from rfl, hl]
  simp [ht]

/-- A non-truthy `image/jpeg` representation falls through to the html
stage. -/
theorem dispJpeg_skip (s : KM) (pid? : Option String)
    (kvs : List (String × Json)) (h : lookupTruthy "image/jpeg" kvs = none) :
    dispJpeg s pid? (.obj kvs) = dispHtml s pid? (.obj kvs) := by
  unfold dispJpeg
  rw [show jget (Json.obj kvs) "image/jpeg" = .ok (List.lookup "image/jpeg" kvs)
    from rfl]
  cases hl : List.lookup "image/jpeg" kvs with
  | none => rfl
  | some v =>
    have hv : truthy v = false := by
      cases hbool : truthy v with
      | true => simp [lookupTruthy, hl, hbool] at h
      | false => rfl
    simp [hv]

/-- A truthy `text/html` representation short-circuits `dispHtml`. -/
theorem dispHtml_hit (s : KM) (pid? : Option String)
    (kvs : List (String × Json)) (v : Json)
    (hl : List.lookup "text/html" kvs = some v) (ht : truthy v = true) :
    dispHtml s pid? (.obj kvs) =
      .ok (emitOut s pid? ⟨.display, some v, some "text/html", none⟩) := by
  unfold dispHtml
  rw [show jget (Json.obj kvs) "text/html" = .ok (List.lookup "text/html" kvs)
    from rfl, hl]
  simp [ht]

/-- A non-truthy `text/html` representation falls through to the json
stage. -/
theorem dispHtml_skip (s : KM) (pid? : Option String)
    (kvs : List (String × Json)) (h : lookupTruthy "text/html" kvs = none) :
    dispHtml s pid? (.obj kvs) = dispJson s pid? (.obj kvs) := by
  unfold dispHtml
  rw [show jget (Json.obj kvs) "text/html" = .ok (List.lookup "text/html" kvs)
    from rfl]
  cases hl : List.lookup "text/html" kvs with
  | none => rfl
  | some v =>
    have hv : truthy v = false := by
      cases hbool : truthy v with
      | true => simp [lookupTruthy, hl, hbool] at h
      | false => rfl
    simp [hv]

/-- A truthy, parseable `application/json` representation short-circuits
`dispJson` with the pretty-printed parse. -/
theorem dispJson_hit (s : KM) (pid? : Option String)
    (kvs : List (String × Json)) (v pj : Json)
    (hl : List.lookup "application/json" kvs = some v) (ht : truthy v = true)
    (hp : Json.parse (jsStr v) = some pj) :
    dispJson s pid? (.obj kvs) =
      .ok (emitOut s pid?
        ⟨.display, some (.str (prettyJson pj)), some "application/json", none⟩) := by
  unfold dispJson
  rw [show jget (Json.obj kvs) "application/json"
      = .ok (List.lookup "application/json" kvs) from rfl, hl]
  simp [ht, hp]

/-- A non-truthy `application/json` representation falls through to the
plain-text stage. -/
theorem dispJson_skip (s : KM) (pid? : Option String)
    (kvs : List (String × Json)) (h : lookupTruthy "application/json" kvs = none) :
    dispJson s pid? (.obj kvs) = dispPlain s pid? (.obj kvs) := by
  unfold dispJson
  rw [show jget (Json.obj kvs) "application/json"
      = .ok (List.lookup "application/json" kvs) from rfl]
  cases hl : List.lookup "application/json" kvs with
  | none => rfl
  | some v =>
    have hv : truthy v = false := by
      cases hbool : truthy v with
      | true => simp [lookupTruthy, hl, hbool] at h
      | false => rfl
    simp [hv]

/-- A truthy `text/plain` representation emits a `result` output. -/
theorem dispPlain_hit (s : KM) (pid? : Option String)
    (kvs : List (String × Json)) (v : Json)
    (hl : List.lookup "text/plain" kvs = some v) (ht : truthy v = true) :
    dispPlain s pid? (.obj kvs) =
      .ok (emitOut s pid? ⟨.result, some v, none, none⟩) := by
  unfold dispPlain
  rw [show jget (Json.obj kvs) "text/plain" = .ok (List.lookup "text/plain" kvs)
    from rfl, hl]
  simp [truthyO, ht]

/-- With no truthy `text/plain` either, the display message emits nothing. -/
theorem dispPlain_skip (s : KM) (pid? : Option String)
    (kvs : List (String × Json)) (h : lookupTruthy "text/plain" kvs = none) :
    dispPlain s pid? (.obj kvs) = .ok (s, []) := by
  unfold dispPlain
  rw [show jget (Json.obj kvs) "text/plain" = .ok (List.lookup "text/plain" kvs)
    from rfl]
  cases hl : List.lookup "text/plain" kvs with
  | none => rfl
  | some v =>
    have hv : truthy v = false := by
      cases hbool : truthy v with
      | true => simp [lookupTruthy, hl, hbool] at h
      | false => rfl
    simp [truthyO, hv]

/-- C4 as amended: for every display/result message whose content carries a
`data` object, the handler inspects the representations in the strict
priority order image/png, image/jpeg, text/html, application/json,
text/plain, selecting the first whose value is truthy (JavaScript
truthiness: in particular a present-but-empty string is skipped); it emits
exactly one output for that representation — the rest are ignored even if
co-present — and emits nothing when no representation is truthy. -/
theorem claim4_priority_amended (s : KM) (m : JupyterMessage)
    (pidv : Option Json) (kvs : List (String × Json)) (t : String)
    (hpar : jget m.parent_header "msg_id" = .ok pidv)
    (hmt : jget m.header "msg_type" = .ok (some (.str t)))
    (ht : t = "display_data" ∨ t = "execute_result")
    (hdata : jget m.content "data" = .ok (some (.obj kvs))) :
    (∀ v, List.lookup "image/png" kvs = some v → truthy v = true →
      handleIopubMessage s m =
        .ok (emitOut s (parentIdOf pidv) ⟨.display, some v, some "image/png", none⟩)) ∧
    (lookupTruthy "image/png" kvs = none →
      ∀ v, List.lookup "image/jpeg" kvs = some v → truthy v = true →
      handleIopubMessage s m =
        .ok (emitOut s (parentIdOf pidv) ⟨.display, some v, some "image/jpeg", none⟩)) ∧
    (lookupTruthy "image/png" kvs = none → lookupTruthy "image/jpeg" kvs = none →
      ∀ v, List.lookup "text/html" kvs = some v → truthy v = true →
      handleIopubMessage s m =
        .ok (emitOut s (parentIdOf pidv) ⟨.display, some v, some "text/html", none⟩)) ∧
    (lookupTruthy "image/png" kvs = none → lookupTruthy "image/jpeg" kvs = none →
      lookupTruthy "text/html" kvs = none →
      ∀ v, List.lookup "application/json" kvs = some v → truthy v = true →
      ∀ pj, Json.parse (jsStr v) = some pj →
      handleIopubMessage s m =
        .ok (emitOut s (parentIdOf pidv)
          ⟨.display, some (.str (prettyJson pj)), some "application/json", none⟩)) ∧
    (lookupTruthy "image/png" kvs = none → lookupTruthy "image/jpeg" kvs = none →
      lookupTruthy "text/html" kvs = none → lookupTruthy "application/json" kvs = none →
      ∀ v, List.lookup "text/plain" kvs = some v → truthy v = true →
      handleIopubMessage s m =
        .ok (emitOut s (parentIdOf pidv) ⟨.result, some v, none, none⟩)) ∧
    (lookupTruthy "image/png" kvs = none → lookupTruthy "image/jpeg" kvs = none →
      lookupTruthy "text/html" kvs = none → lookupTruthy "application/json" kvs = none →
      lookupTruthy "text/plain" kvs = none →
      handleIopubMessage s m = .ok (s, [])) := by
  have hda := handleIopub_display s m pidv kvs t hpar hmt ht hdata
  refine ⟨?_, ?_, ?_, ?_, ?_, ?_⟩
  · intro v hl htr
    rw [hda, displayBranch_png s _ kvs v hl htr]
  · intro h1 v hl htr
    rw [hda, displayBranch_skip_png s _ kvs h1, dispJpeg_hit s _ kvs v hl htr]
  · intro h1 h2 v hl htr
    rw [hda, displayBranch_skip_png s _ kvs h1, dispJpeg_skip s _ kvs h2,
      dispHtml_hit s _ kvs v hl htr]
  · intro h1 h2 h3 v hl htr pj hp
    rw [hda, displayBranch_skip_png s _ kvs h1, dispJpeg_skip s _ kvs h2,
      dispHtml_skip s _ kvs h3, dispJson_hit s _ kvs v pj hl htr hp]
  · intro h1 h2 h3 h4 v hl htr
    rw [hda, displayBranch_skip_png s _ kvs h1, dispJpeg_skip s _ kvs h2,
      dispHtml_skip s _ kvs h3, dispJson_skip s _ kvs h4,
      dispPlain_hit s _ kvs v hl htr]
  · intro h1 h2 h3 h4 h5
    rw [hda, displayBranch_skip_png s _ kvs h1, dispJpeg_skip s _ kvs h2,
      dispHtml_skip s _ kvs h3, dispJson_skip s _ kvs h4,
      dispPlain_skip s _ kvs h5]

/-- The concrete display broadcast used to refute C4: its data carries both
an `image/png` representation (empty string) and a `text/plain` one. -/
def dispMsgPngEmpty : JupyterMessage :=
  ⟨.obj [("msg_type", .str "display_data")], .obj [], .obj [],
   .obj [("data", .obj [("image/png", .str ""), ("text/plain", .str "x")])], []⟩

/-- C4 counterexample: a display message containing both `image/png` and
`text/plain` representations yields one output classified `result` with no
mime type — not the claimed single `display` output with mime `image/png` —
because the empty-string png value is skipped by the truthiness guard. -/
theorem claim4_counterexample :
    handleIopubMessage kmReady dispMsgPngEmpty =
      .ok (kmReady,
        [Emitted.output ⟨OutKind.result, some (.str "x"), none, none⟩ none]) ∧
    (⟨OutKind.result, some (.str "x"), none, none⟩ : KernelOutput).mimeType ≠
      some "image/png" ∧
    (⟨OutKind.result, some (.str "x"), none, none⟩ : KernelOutput).type ≠
      OutKind.display :=
  ⟨rfl, by simp, by decide⟩

/-- The concrete display broadcast used for the C4 witness: a truthy png
value alongside a plain-text one. -/
def dispMsgPng : JupyterMessage :=
  ⟨.obj [("msg_type", .str "display_data")], .obj [], .obj [],
   .obj [("data", .obj [("image/png", .str "PNG"), ("text/plain", .str "x")])], []⟩

/-- C4 witness: the amended priority theorem applied at a concrete display
message with a truthy png value alongside a plain-text one. -/
theorem claim4_witness :
    handleIopubMessage kmReady dispMsgPng =
      .ok (emitOut kmReady none
        ⟨.display, some (.str "PNG"), some "image/png", none⟩) :=
  (claim4_priority_amended kmReady dispMsgPng none
    [("image/png", .str "PNG"), ("text/plain", .str "x")] "display_data"
    rfl rfl (Or.inl rfl) rfl).1 (.str "PNG") rfl (by decide)

/-- Whether an event is the `execute` registration for a given message id
(the only event that can create a fresh promise under that id; in the real
system message ids are fresh UUIDs, so a given id is registered once). -/
def isExecRegFor (id : String) : KEvent → Prop
  | .execReg j => j = id
  | _ => False

/-- One step preserves the abandoned status of an execution id: once the id
is absent from the pending map while its promise is unresolved, no event
other than a re-registration of the same id can ever resolve it — the idle
handler resolves only ids present in the map. -/
theorem kstep_abandoned (s : KM) (e : KEvent) (id : String)
    (hne : ¬ isExecRegFor id e)
    (h1 : List.lookup id s.pending = none)
    (h2 : List.lookup id s.promises = some false) :
    List.lookup id (kstep s e).1.pending = none ∧
    List.lookup id (kstep s e).1.promises = some false := by
  cases e with
  | startBegin =>
    have hpend : (kstep s .startBegin).1.pending
        = (if s.hasProcess then shutdownFx s else (s, [])).1.pending :=
      (setState_fields _ _).2.1
    have hprom : (kstep s .startBegin).1.promises
        = (if s.hasProcess then shutdownFx s else (s, [])).1.promises :=
      (setState_fields _ _).2.2.1
    constructor
    · rw [hpend]
      by_cases hp : s.hasProcess
      · simp only [hp, if_true]
        rw [(shutdownFx_fields s).1]
        rfl
      · simp only [hp]
        simpa using h1
    · rw [hprom]
      by_cases hp : s.hasProcess
      · simp only [hp, if_true]
        rw [(shutdownFx_fields s).2.1]
        exact h2
      · simp only [hp]
        simpa using h2
  | handshakeDone =>
    refine ⟨?_, ?_⟩
    · rw [show (kstep s .handshakeDone).1.pending = s.pending from
        (setState_fields s .idle).2.1]
      exact h1
    · rw [show (kstep s .handshakeDone).1.promises = s.promises from
        (setState_fields s .idle).2.2.1]
      exact h2
  | procExit =>
    refine ⟨rfl, ?_⟩
    rw [show (kstep s .procExit).1.promises = s.promises from
      (setState_fields s .dead).2.2.1]
    exact h2
  | procError =>
    refine ⟨?_, ?_⟩
    · rw [show (kstep s .procError).1.pending = s.pending from
        (setState_fields s .dead).2.1]
      exact h1
    · rw [show (kstep s .procError).1.promises = s.promises from
        (setState_fields s .dead).2.2.1]
      exact h2
  | shutdownCall =>
    refine ⟨?_, ?_⟩
    · rw [show (kstep s .shutdownCall).1.pending = [] from (shutdownFx_fields s).1]
      rfl
    · rw [show (kstep s .shutdownCall).1.promises = s.promises from
        (shutdownFx_fields s).2.1]
      exact h2
  | execReg j =>
    have hj : id ≠ j := fun he => hne (by simp [isExecRegFor, he])
    rw [kstep_execReg_eq]
    unfold executeCall
    by_cases hg : s.hasShell ∧ s.hasProtocol
    · rw [if_pos hg]
      constructor
      · rw [show List.lookup id
            (mset j ([] : List KernelOutput) s.pending) = List.lookup id s.pending
          from lookup_mset_ne j id hj [] s.pending]
        exact h1
      · rw [show List.lookup id (mset j false s.promises) = List.lookup id s.promises
          from lookup_mset_ne j id hj false s.promises]
        exact h2
    · rw [if_neg hg]
      exact ⟨h1, h2⟩
  | iopub m =>
    by_cases ha : s.iopubAlive
    · by_cases hp : s.hasProtocol
      · cases hok : handleIopubMessage s m with
        | error e =>
          have hk : (kstep s (.iopub m)).1 = { s with iopubAlive := false } := by
            rw [kstep_iopub_eq]
            simp only [ha, hp, if_true, hok]
          rw [hk]
          exact ⟨h1, h2⟩
        | ok r =>
          have hk : (kstep s (.iopub m)).1 = r.1 := by
            rw [kstep_iopub_eq]
            simp only [ha, hp, if_true, hok]
          rw [hk]
          rcases handleIopub_shape s m r hok with h' | h' | h' | ⟨p, h', hsome⟩
            | ⟨pid, o, h'⟩ | ⟨v, h'⟩
          · rw [h']
            exact ⟨h1, h2⟩
          · rw [h', (setState_fields s .busy).2.1, (setState_fields s .busy).2.2.1]
            exact ⟨h1, h2⟩
          · rw [h', (setState_fields s .idle).2.1, (setState_fields s .idle).2.2.1]
            exact ⟨h1, h2⟩
          · have hpid : id ≠ p := by
              intro he
              rw [(setState_fields s .idle).2.1, ← he, h1] at hsome
              simp at hsome
            rw [h']
            constructor
            · show List.lookup id (mdelete p (setState s .idle).1.pending) = none
              rw [lookup_mdelete_ne p id hpid, (setState_fields s .idle).2.1]
              exact h1
            · show List.lookup id (mset p true (setState s .idle).1.promises)
                = some false
              rw [lookup_mset_ne p id hpid, (setState_fields s .idle).2.2.1]
              exact h2
          · rw [h']
            exact ⟨emitOut_pending_none s pid o id h1,
              by rw [(emitOut_fields s pid o).2.1]; exact h2⟩
          · rw [h']
            exact ⟨h1, h2⟩
      · have hk : (kstep s (.iopub m)).1 = { s with iopubAlive := false } := by
          rw [kstep_iopub_eq]
          simp only [ha, hp, if_true, if_false, Bool.false_eq_true]
        rw [hk]
        exact ⟨h1, h2⟩
    · have hk : (kstep s (.iopub m)).1 = s := by
        rw [kstep_iopub_eq]
        simp only [ha, if_false, Bool.false_eq_true]
      rw [hk]
      exact ⟨h1, h2⟩

/-- Running any abandoned-id-avoiding event sequence preserves the
abandoned status. -/
theorem kmRun_abandoned (evs : List KEvent) (s : KM) (id : String)
    (hne : ∀ e ∈ evs, ¬ isExecRegFor id e)
    (h1 : List.lookup id s.pending = none)
    (h2 : List.lookup id s.promises = some false) :
    List.lookup id (kmRun s evs).pending = none ∧
    List.lookup id (kmRun s evs).promises = some false := by
  induction evs generalizing s with
  | nil => exact ⟨h1, h2⟩
  | cons e rest ih =>
    have hstep := kstep_abandoned s e id (hne e (by simp)) h1 h2
    exact ih (kstep s e).1 (fun e' he' => hne e' (by simp [he'])) hstep.1 hstep.2

/-- The manager after `start()`, an in-flight `execute` registered under
message id `"m1"`, and a concurrent `shutdown()`. -/
def kmAborted : KM :=
  kmRun km0 [KEvent.startBegin, KEvent.execReg "m1", KEvent.shutdownCall]

/-- The idle status broadcast whose parent is the in-flight execution —
the only message that could ever have resolved it. -/
def idleMsgM1 : JupyterMessage :=
  ⟨.obj [("msg_type", .str "status")], .obj [("msg_id", .str "m1")], .obj [],
   .obj [("execution_state", .str "idle")], []⟩

/-- C1: `shutdown()` during an in-flight `execute` clears the
pending-execution map without invoking the stored `resolve`, so after
shutdown the execution's completion promise is still unresolved, and —
because the idle handler resolves only map entries — no subsequent event
that is not a fresh registration of the very same message id can ever
resolve it: the in-flight `execute`'s completion wait is never released.
This contradicts the specified behaviour (release every pending execution on
shutdown) and documents the code bug. -/
theorem claim1_shutdown_abandons_pending (evs : List KEvent)
    (hne : ∀ e ∈ evs, ¬ isExecRegFor "m1" e) :
    List.lookup "m1" kmAborted.pending = none ∧
    List.lookup "m1" kmAborted.promises = some false ∧
    List.lookup "m1" (kmRun kmAborted evs).pending = none ∧
    List.lookup "m1" (kmRun kmAborted evs).promises = some false := by
  have h := kmRun_abandoned evs kmAborted "m1" hne rfl rfl
  exact ⟨rfl, rfl, h.1, h.2⟩

/-- C1 witness: even delivering the idle broadcast that carries the
execution's own parent id after the shutdown leaves its promise
unresolved. -/
theorem claim1_witness :
    List.lookup "m1" (kmRun kmAborted [KEvent.iopub idleMsgM1]).promises
      = some false :=
  (claim1_shutdown_abandons_pending [KEvent.iopub idleMsgM1]
    (by
      intro e he
      simp only [List.mem_singleton] at he
      subst he
      intro hc
      exact hc)).2.2.2
